import Mathlib

/-!
Verification of the ticktty terminal-clock renderer
(`src/renderers/index.ts`: `formatDuration`, `formatTime`, `getAnalogClock`,
`getFontMetrics`, `getDigitalClock`, `render`) against its specification.

Modelling decisions (shallow embedding of the TypeScript source):
* JavaScript strings are modelled as `List Char` (`Str`); string literals
  are written via `.data`, `padStart(2, "0")` as `padStart2`, `n.toString()`
  as `natToStr`, `split(c)` as `splitOnCh c`, `join("\n")` as `joinNl`.
* chalk styling wraps a string in concrete ANSI SGR escape sequences
  (`sgr`/`wrap`); `strip-ansi` is modelled by the scanner `stripAnsi`
  which removes `ESC [ ... m` runs.
* The figlet large-font rendering capability (an external collaborator)
  is a parameter `figletF : Str → Str → List Str` giving, for a font name
  and a text, the rendered art as its list of lines (the source splits
  every `figlet.textSync` result on `"\n"` immediately at each call site).
* Floating-point trigonometry in the analog renderer is abstracted by a
  parameter `Trig` with `sinT t`/`cosT t` standing for
  `Math.sin(2*Math.PI*t)`/`Math.cos(2*Math.PI*t)`; all verified analog
  properties are independent of the sampled positions and therefore hold
  for every such parameter, in particular for the IEEE implementation.
* The font-metrics cache (process-global mutable state) is modelled by
  explicit state passing; `getFontMetrics` additionally returns how many
  times it invoked the underlying rendering capability.
-/

namespace Ticktty

/-- JavaScript strings, modelled as their character lists. -/
abbrev Str := List Char

/-- Decimal digit character, `digitChar k = '0' + k` for `k < 10`. -/
def digitChar (k : Nat) : Char := Char.ofNat (48 + k)

/-- Fuel-driven helper for `natToStr` (structural recursion, so that the
kernel can evaluate it; the fuel is always sufficient at the call site). -/
def natToStrAux : Nat → Nat → Str
  | 0, n => [digitChar (n % 10)]
  | fuel + 1, n =>
    if n < 10 then [digitChar n]
    else natToStrAux fuel (n / 10) ++ [digitChar (n % 10)]

/-- JavaScript `n.toString()` for a natural number: decimal notation,
no leading zeros (except for `0` itself). -/
def natToStr (n : Nat) : Str := natToStrAux n n

/-- JavaScript `s.padStart(2, "0")`. -/
def padStart2 (s : Str) : Str := List.replicate (2 - s.length) '0' ++ s

/-- JavaScript `s.split(sep)` for a one-character separator. -/
def splitOnCh (sep : Char) : Str → List Str
  | [] => [[]]
  | c :: rest =>
    if c = sep then [] :: splitOnCh sep rest
    else
      match splitOnCh sep rest with
      | [] => [[c]]
      | h :: t => (c :: h) :: t

/-- JavaScript `parts.join("\n")`. -/
def joinNl : List Str → Str
  | [] => []
  | [l] => l
  | l :: ls => l ++ '\n' :: joinNl ls

/-- An ANSI SGR escape sequence `ESC [ code m` (what chalk emits). -/
def sgr (code : Str) : Str := '\x1b' :: '[' :: code ++ ['m']

/-- chalk's styling: wrap a string between an opening and a closing
SGR sequence. -/
def wrap (o c : Str) (s : Str) : Str := sgr o ++ s ++ sgr c

def chalkCyan (s : Str) : Str := wrap ("36").data ("39").data s
def chalkYellow (s : Str) : Str := wrap ("33").data ("39").data s
def chalkGreen (s : Str) : Str := wrap ("32").data ("39").data s
def chalkBlue (s : Str) : Str := wrap ("34").data ("39").data s
def chalkWhite (s : Str) : Str := wrap ("37").data ("39").data s
def chalkGray (s : Str) : Str := wrap ("90").data ("39").data s
def chalkDim (s : Str) : Str := wrap ("2").data ("22").data s
def chalkBold (s : Str) : Str := wrap ("1").data ("22").data s

/-- `chalk.white.bold`. -/
def chalkWhiteBold (s : Str) : Str := chalkWhite (chalkBold s)
/-- `chalk.green.bold`. -/
def chalkGreenBold (s : Str) : Str := chalkGreen (chalkBold s)
/-- `chalk.red.bold`. -/
def chalkRedBold (s : Str) : Str := wrap ("31").data ("39").data (chalkBold s)
/-- `chalk.bgRed.white.bold`. -/
def chalkBgRedWhiteBold (s : Str) : Str :=
  wrap ("41").data ("49").data (chalkWhite (chalkBold s))
/-- `chalk.bold.bgBlack.white`. -/
def chalkBoldBgBlackWhite (s : Str) : Str :=
  chalkBold (wrap ("40").data ("49").data (chalkWhite s))

/-- `strip-ansi` scanner; the boolean records whether we are inside an
`ESC [ ... m` sequence (dropping characters through the closing `m`). -/
def stripAnsiAux : Bool → Str → Str
  | _, [] => []
  | true, c :: rest =>
    if c = 'm' then stripAnsiAux false rest else stripAnsiAux true rest
  | false, c :: rest =>
    if c = '\x1b' ∧ rest.head? = some '[' then stripAnsiAux true rest.tail
    else c :: stripAnsiAux false rest
termination_by _ s => s.length
decreasing_by
  all_goals simp [List.length_tail]
  all_goals omega

/-- `stripAnsi(s)`: remove the ANSI styling sequences. -/
def stripAnsi (s : Str) : Str := stripAnsiAux false s

/-- Visible length of a styled string (`stripAnsi(s).length`), used for
all centering math. -/
def visibleLen (s : Str) : Nat := (stripAnsi s).length

/-- `Math.max(...l)` for a list of naturals (only applied to lists of
nonnegative values in the source, so the empty default `0` is harmless). -/
def maxList (l : List Nat) : Nat := l.foldl max 0

/-- Decidable substring test: does `pat` occur contiguously in `s`? -/
def containsSeg (pat : Str) : Str → Bool
  | [] => pat == []
  | c :: rest => (List.take pat.length (c :: rest) == pat) || containsSeg pat rest

/-- `formatDuration(ms)`: milliseconds to `"HH:MM:SS"`;
`totalSeconds = Math.ceil(ms / 1000)` is `(ms + 999) / 1000` on naturals. -/
def formatDuration (ms : Nat) : Str :=
  let totalSeconds := (ms + 999) / 1000
  let seconds := totalSeconds % 60
  let minutes := totalSeconds / 60 % 60
  let hours := totalSeconds / 3600
  padStart2 (natToStr hours) ++ ':' :: padStart2 (natToStr minutes)
    ++ ':' :: padStart2 (natToStr seconds)

/-- A JavaScript `Date`, by the three fields the renderer reads. -/
structure DateT where
  hours : Nat
  minutes : Nat
  seconds : Nat

/-- `formatTime(date)`: `Date` to `"HH:MM:SS"`. -/
def formatTime (d : DateT) : Str :=
  padStart2 (natToStr d.hours) ++ ':' :: padStart2 (natToStr d.minutes)
    ++ ':' :: padStart2 (natToStr d.seconds)

/-- The external large-font rendering capability: font name and text to
the art's lines (the source splits every `figlet.textSync` result on
`"\n"` at each call site). -/
abbrev FigletSys := Str → Str → List Str

/-- `FontMetrics` record `{blockWidth, sepWidth, height}`. -/
structure FontMetrics where
  blockWidth : Nat
  sepWidth : Nat
  height : Nat
deriving DecidableEq

/-- The source loop of `getFontMetrics`: for `i = 0..59` render
`i.toString().padStart(2, "0")` and track the running pair
`(maxBlockWidth, height)`. -/
def metricsAcc (fl : Str → List Str) : Nat × Nat :=
  (List.range 60).foldl
    (fun (acc : Nat × Nat) i =>
      (max acc.1 (maxList ((fl (padStart2 (natToStr i))).map List.length)),
       max acc.2 (fl (padStart2 (natToStr i))).length))
    (0, 0)

/-- Body of `getFontMetrics` on a cache miss: measure `"00"`–`"59"` and
the separator through the rendering capability `fl` (the capability for
the chosen font), tracking the running maxima exactly as the source loop
does (`metricsAcc`), then folding in the separator. -/
def computeFontMetrics (fl : Str → List Str) : FontMetrics :=
  { blockWidth := (metricsAcc fl).1
    sepWidth := maxList ((fl ((":").data)).map List.length)
    height := max (metricsAcc fl).2 (fl ((":").data)).length }

/-- The process-global `fontMetricsCache`, modelled as explicit state. -/
abbrev MetricsCache := List (Str × FontMetrics)

/-- `getFontMetrics(font)` with the cache passed explicitly; the third
component counts how many times this call invoked the underlying
rendering capability (61 on a miss: sixty two-digit strings plus the
separator; 0 on a hit). -/
def getFontMetrics (figletF : FigletSys) (cache : MetricsCache) (font : Str) :
    FontMetrics × MetricsCache × Nat :=
  match cache.lookup font with
  | some m => (m, cache, 0)
  | none =>
    let m := computeFontMetrics (figletF font)
    (m, (font, m) :: cache, 61)

/-- `padBlockLines` helper of `getDigitalClock`: produce exactly `height`
rows, each centered to `targetWidth` (`Math.max(0, w - len)` is the
truncated subtraction on `Nat`). -/
def padBlockLines (height : Nat) (lines : List Str) (targetWidth : Nat) : List Str :=
  (List.range height).map fun i =>
    let line := lines.getD i []
    let padding := targetWidth - line.length
    let leftPad := padding / 2
    List.replicate leftPad ' ' ++ line ++ List.replicate (padding - leftPad) ' '

/-- `getDigitalClock(text, font)`. The `digitCache` get-or-compute always
yields `figlet.textSync(str).split("\n")` for a deterministic capability,
so the cached block is modelled by the capability applied directly. -/
def getDigitalClock (figletF : FigletSys) (text font : Str) : Str :=
  let metrics := computeFontMetrics (figletF font)
  let parts := splitOnCh ':' text
  let hLines := figletF font (parts.getD 0 [])
  let mLines := figletF font (parts.getD 1 [])
  let sLines := figletF font (parts.getD 2 [])
  let sepLines := figletF font ((":").data)
  let hBlock := padBlockLines metrics.height hLines metrics.blockWidth
  let mBlock := padBlockLines metrics.height mLines metrics.blockWidth
  let sBlock := padBlockLines metrics.height sLines metrics.blockWidth
  let sepBlock := padBlockLines metrics.height sepLines metrics.sepWidth
  joinNl ((List.range metrics.height).map fun i =>
    hBlock.getD i [] ++ sepBlock.getD i [] ++ mBlock.getD i [] ++ sepBlock.getD i []
      ++ sBlock.getD i [])

/-! ### Analog renderer -/

/-- Abstract trigonometry: `sinT t` and `cosT t` stand for
`Math.sin(2*Math.PI*t)` and `Math.cos(2*Math.PI*t)` (`t` in turns).
All verified analog properties hold for every choice, hence for the
floating-point implementation. -/
structure Trig where
  sinT : Rat → Rat
  cosT : Rat → Rat

/-- JavaScript `Math.round` (half-up, toward plus infinity). -/
def jsRound (q : Rat) : Int := ⌊q + 1/2⌋

def sizeY : Nat := 45
def sizeX : Nat := 90
def radius : Nat := 21
def centerY : Nat := sizeY / 2
def centerX : Nat := sizeX / 2

/-- Character set for the analog face (dial marks, hands, center). -/
structure AnalogChars where
  dialHour : Char
  dialMinute : Char
  dialOther : Char
  handHour : Char
  handMinute : Char
  handSecond : Char
  center : Char

/-- Nerd-Font glyph set (`useGlyphs = true`). -/
def glyphChars : AnalogChars :=
  { dialHour := '', dialMinute := '', dialOther := '·'
    handHour := '█', handMinute := '', handSecond := ''
    center := '' }

/-- Standard block-element glyph set (`useGlyphs = false`). -/
def standardChars : AnalogChars :=
  { dialHour := '●', dialMinute := '•', dialOther := '·'
    handHour := '█', handMinute := '●', handSecond := '·'
    center := '⊕' }

/-- The 45×90 character board; each cell holds one styled glyph string. -/
abbrev Board := List (List Str)

/-- A board write: integer coordinates and the styled cell value. -/
abbrev AWrite := Int × Int × Str

def initBoard : Board := List.replicate sizeY (List.replicate sizeX [' '])

/-- The source's guarded assignment `if (y,x in range) board[y][x] = v`. -/
def setCell (b : Board) (y x : Int) (v : Str) : Board :=
  if 0 ≤ y ∧ y < (sizeY : Int) ∧ 0 ≤ x ∧ x < (sizeX : Int) then
    b.set y.toNat ((b.getD y.toNat []).set x.toNat v)
  else b

/-- Sequential board mutation, as a fold over the list of writes. -/
def applyWrites (ws : List AWrite) (b : Board) : Board :=
  ws.foldl (fun b w => setCell b w.1 w.2.1 w.2.2) b

def getCell (b : Board) (p : Nat × Nat) : Str := (b.getD p.1 []).getD p.2 []

def dialY (tg : Trig) (r : Nat) : Int := jsRound (22 + tg.sinT ((r : Rat) / 360) * 21)
def dialX (tg : Trig) (r : Nat) : Int := jsRound (45 + tg.cosT ((r : Rat) / 360) * 21 * 2)

/-- Dial drawing: degrees `0, 2, ..., 358`; hour ticks every 30°, minute
ticks every 6°, faint ticks elsewhere. -/
def dialWrites (tg : Trig) (ch : AnalogChars) : List AWrite :=
  (List.range 180).map fun k =>
    let r := 2 * k
    (dialY tg r, dialX tg r,
      if r % 30 = 0 then chalkWhiteBold [ch.dialHour]
      else if r % 6 = 0 then chalkGray [ch.dialMinute]
      else chalkDim [ch.dialOther])

def clockNumerals : List Nat := [3, 4, 5, 6, 7, 8, 9, 10, 11, 12, 1, 2]

def numeralY (tg : Trig) (i : Nat) : Int := jsRound (22 + tg.sinT ((i : Rat) * 30 / 360) * 19)
def numeralX (tg : Trig) (i : Nat) : Int := jsRound (45 + tg.cosT ((i : Rat) * 30 / 360) * 19 * 2)

/-- Numeral plotting at radius `radius - 2 = 19`; a two-digit numeral puts
its tens digit one column left of its units digit (both plain strings). -/
def numberWrites (tg : Trig) : List AWrite :=
  clockNumerals.enum.flatMap fun p =>
    let i := p.1
    let num := p.2
    let y := numeralY tg i
    let x := numeralX tg i
    if 0 ≤ y ∧ y < (sizeY : Int) ∧ 0 ≤ x ∧ x < (sizeX : Int) then
      if 9 < num then
        (if 0 < x then [(y, x - 1, natToStr (num / 10))] else [])
          ++ [(y, x, natToStr (num % 10))]
      else [(y, x, natToStr num)]
    else []

def handTurn (value total : Rat) : Rat := value / total - 1/4
def handY (tg : Trig) (turn r : Rat) : Int := jsRound (22 + tg.sinT turn * r)
def handX (tg : Trig) (turn r : Rat) : Int := jsRound (45 + tg.cosT turn * r * 2)

/-- The sample points of `drawHand`: `r = 0, 0.5, ..., ` up to
`radius * frac` inclusive, i.e. `j / 2` for `j = 0 .. floor(2*21*frac)`. -/
def handPoints (tg : Trig) (value total frac : Rat) : List (Int × Int) :=
  (List.range ((⌊2 * (21 * frac)⌋).toNat + 1)).map fun (j : Nat) =>
    (handY tg (handTurn value total) ((j : Rat) / 2),
     handX tg (handTurn value total) ((j : Rat) / 2))

/-- `drawHand`, as its list of guarded writes (the glyph/color is constant
along one hand). -/
def handWrites (tg : Trig) (value total frac : Rat) (v : Str) : List AWrite :=
  (handPoints tg value total frac).map fun q => (q.1, q.2, v)

/-- `Date | number` union argument of `getAnalogClock` and `render`. -/
inductive DateOrMs where
  | date (d : DateT)
  | ms (n : Nat)

/-- Extraction of `{hours (mod 12), minutes, seconds}` in
`getAnalogClock`, including the unreachable fallback branch. -/
def analogHMS : DateOrMs → Bool → Nat × Nat × Nat
  | .ms n, true =>
    let totalSeconds := (n + 999) / 1000
    (totalSeconds / 3600 % 12, totalSeconds / 60 % 60, totalSeconds % 60)
  | .date d, false => (d.hours % 12, d.minutes, d.seconds)
  | _, _ => (0, 0, 0)

/-- All board writes of one analog frame, in source order:
dial, numerals, second hand, minute hand, hour hand, center. -/
def analogWrites (tg : Trig) (h m s : Nat) (ch : AnalogChars) : List AWrite :=
  dialWrites tg ch ++ numberWrites tg
    ++ handWrites tg (s : Rat) 60 (9/10) (chalkBlue [ch.handSecond])
    ++ handWrites tg (m : Rat) 60 (3/4) (chalkGreenBold [ch.handMinute])
    ++ handWrites tg ((h : Rat) + (m : Rat) / 60) 12 (1/2) (chalkRedBold [ch.handHour])
    ++ [((centerY : Int), (centerX : Int), chalkWhite [ch.center])]

/-- The finished 45×90 board of one analog frame. -/
def analogBoard (tg : Trig) (dateOrMs : DateOrMs) (isTimer useGlyphs : Bool) : Board :=
  let hms := analogHMS dateOrMs isTimer
  let ch := if useGlyphs then glyphChars else standardChars
  applyWrites (analogWrites tg hms.1 hms.2.1 hms.2.2 ch) initBoard

/-- `getAnalogClock(dateOrMs, isTimer, useGlyphs)`:
`board.map(row => row.join("")).flatten("\n")`. -/
def getAnalogClock (tg : Trig) (dateOrMs : DateOrMs) (isTimer useGlyphs : Bool) : Str :=
  joinNl ((analogBoard tg dateOrMs isTimer useGlyphs).map List.flatten)

/-! ### Layout engine (`render`) -/

/-- Terminal dimensions from the terminal-size query. -/
structure TermDims where
  rows : Nat
  columns : Nat

def isTimerOf : DateOrMs → Bool
  | .ms _ => true
  | .date _ => false

/-- Apostrophe character (quotes around the font name in the warning). -/
def sq : Char := Char.ofNat 39

/-- The digital too-small warning text, trailing newline included (the
newline sits inside `chalk.yellow(...)` in the source). -/
def digitalWarn (font : Str) (rw rh : Nat) : Str :=
  ("Terminal too small for digital clock with font ").data
    ++ sq :: font ++ sq :: (" (needs ").data ++ natToStr rw ++ 'x' :: natToStr rh
    ++ ("), switching to text.").data ++ ['\n']

/-- The analog too-small warning text, trailing newline included. -/
def analogWarn : Str :=
  ("Terminal too small for large analog clock (needs 90x45), switching to text.").data
    ++ ['\n']

/-- The style-fit check of `render`: returns the warning block (empty when
the requested style fits) and the effective style. -/
def renderFit (figletF : FigletSys) (size : TermDims) (style font : Str) : Str × Str :=
  if style = ("digital").data then
    let metrics := computeFontMetrics (figletF font)
    let requiredWidth := metrics.blockWidth * 3 + metrics.sepWidth * 2
    let requiredHeight := metrics.height
    if size.columns < requiredWidth ∨ size.rows < requiredHeight + 2 then
      (chalkYellow (digitalWarn font requiredWidth requiredHeight), ("text").data)
    else ([], style)
  else if style = ("analog").data then
    if size.columns < 90 ∨ size.rows < 45 then
      (chalkYellow analogWarn, ("text").data)
    else ([], style)
  else ([], style)

/-- The style-specific body block of `render`, chosen by the effective
style. -/
def renderBody (figletF : FigletSys) (tg : Trig) (data : DateOrMs) (isTimer : Bool)
    (eff text font : Str) (useGlyphs : Bool) : Str :=
  if eff = ("digital").data then
    chalkGreen (getDigitalClock figletF text font)
      ++ chalkDim ('\n' :: ("Font: ").data ++ font)
  else if eff = ("analog").data then
    getAnalogClock tg data isTimer useGlyphs ++ '\n' :: chalkBold text
  else
    chalkBoldBgBlackWhite (("  ").data ++ text ++ ("  ").data)

/-- The footer line, built from the originally requested style, the glyph
flag and the mode. -/
def footerTextOf (style : Str) (useGlyphs isTimer : Bool) : Str :=
  ("q: Quit | d: Digital | a: Analog | t: Text").data
    ++ (if style = ("digital").data then (" | f: Cycle Font").data
        else if style = ("analog").data then
          (" | g: Glyphs (").data ++ (if useGlyphs then ("ON").data else ("OFF").data)
            ++ [')']
        else [])
    ++ (if isTimer then (" | r: Reset | space: Start/Pause").data else [])

/-- The content block of one frame: optional label line, optional PAUSED
banner, the fit-check warning when present, then the body. -/
def renderContent (figletF : FigletSys) (tg : Trig) (size : TermDims) (data : DateOrMs)
    (style : Str) (label : Option Str) (font : Str) (isPaused useGlyphs : Bool) : Str :=
  let isTimer := isTimerOf data
  let text := match data with
    | .ms n => formatDuration n
    | .date d => formatTime d
  let pre :=
    (match label with
      | some l => if l ≠ [] then chalkCyan l ++ ['\n'] else []
      | none => [])
    ++ (if isPaused then chalkBgRedWhiteBold ((" PAUSED ").data) ++ ['\n'] else [])
  let fit := renderFit figletF size style font
  pre ++ fit.1 ++ renderBody figletF tg data isTimer fit.2 text font useGlyphs

/-- `render(...)`: the full frame handed to the repaint sink. -/
def render (figletF : FigletSys) (tg : Trig) (size : TermDims) (data : DateOrMs)
    (style : Str) (label : Option Str) (font : Str) (isPaused useGlyphs : Bool) : Str :=
  let content := renderContent figletF tg size data style label font isPaused useGlyphs
  let lines := splitOnCh '\n' content
  let contentHeight := lines.length
  let lineWidths := lines.map visibleLen
  let maxContentWidth := maxList lineWidths
  let footerText := footerTextOf style useGlyphs (isTimerOf data)
  let footerHeight := 1
  let topPad : Int := Int.fdiv ((size.rows : Int) - footerHeight - contentHeight) 2
  let blockLeftPad : Int := Int.fdiv ((size.columns : Int) - maxContentWidth) 2
  let body := ((lines.zip lineWidths).map fun lw =>
      let relativePad : Int := Int.fdiv ((maxContentWidth : Int) - (lw.2 : Int)) 2
      List.replicate (max 0 (blockLeftPad + relativePad)).toNat ' ' ++ lw.1 ++ ['\n']).flatten
  let usedLines := (max 0 topPad).toNat + lines.length
  let bottomPad : Int := (size.rows : Int) - footerHeight - (usedLines : Int)
  let footerPad : Int := Int.fdiv ((size.columns : Int) - (visibleLen footerText : Int)) 2
  List.replicate (max 0 topPad).toNat '\n' ++ body
    ++ List.replicate (max 0 bottomPad).toNat '\n'
    ++ (List.replicate (max 0 footerPad).toNat ' ' ++ chalkDim footerText)

/-! ### Definitions written from the specification text (for refinement
statements; these mirror the spec's words, not the source) -/

/-- Spec: the two-digit strings `"00"`–`"59"`. -/
def specTwoDigitStrs : List Str := (List.range 60).map fun i => padStart2 (natToStr i)

/-- Spec: rendered width of an art (max line length). -/
def artWidth (lines : List Str) : Nat := maxList (lines.map List.length)

/-- Spec: the maximum rendered width across all two-digit strings. -/
def specBlockWidth (fl : Str → List Str) : Nat :=
  maxList (specTwoDigitStrs.map fun s => artWidth (fl s))

/-- Spec: the rendered width of the separator glyph. -/
def specSepWidth (fl : Str → List Str) : Nat := artWidth (fl ((":").data))

/-- Spec: the maximum rendered height across the two-digit strings and the
separator. -/
def specHeight (fl : Str → List Str) : Nat :=
  max (maxList (specTwoDigitStrs.map fun s => (fl s).length)) ((fl ((":").data)).length)

/-- Spec: row `i` of a glyph block padded to `targetWidth`, split
`floor(pad/2)` left and the remainder right. -/
def specPadLine (lines : List Str) (targetWidth i : Nat) : Str :=
  let line := lines.getD i []
  let pad := targetWidth - line.length
  List.replicate (pad / 2) ' ' ++ line ++ List.replicate (pad - pad / 2) ' '

/-- Spec: the digital clock's rows,
`hours-block | sep | minutes-block | sep | seconds-block`. -/
def specDigitalLines (fl : Str → List Str) (M : FontMetrics) (h2 m2 s2 : Str) : List Str :=
  (List.range M.height).map fun i =>
    specPadLine (fl h2) M.blockWidth i ++ specPadLine (fl ((":").data)) M.sepWidth i
      ++ specPadLine (fl m2) M.blockWidth i ++ specPadLine (fl ((":").data)) M.sepWidth i
      ++ specPadLine (fl s2) M.blockWidth i

/-- Spec (§4.5 steps 7–10): the frame layout from the content lines and
the footer. -/
def specLayout (size : TermDims) (lines : List Str) (footer : Str) : Str :=
  let contentHeight := lines.length
  let maxW := maxList (lines.map visibleLen)
  let topPad : Int := max 0 (Int.fdiv ((size.rows : Int) - 1 - (contentHeight : Int)) 2)
  let blockLeftPad : Int := Int.fdiv ((size.columns : Int) - (maxW : Int)) 2
  List.replicate topPad.toNat '\n'
    ++ (lines.map fun l =>
        List.replicate
            (max 0 (blockLeftPad + Int.fdiv ((maxW : Int) - (visibleLen l : Int)) 2)).toNat
            ' ' ++ l ++ ['\n']).flatten
    ++ List.replicate (max 0 ((size.rows : Int) - 1 - (topPad + (contentHeight : Int)))).toNat '\n'
    ++ (List.replicate (max 0 (Int.fdiv ((size.columns : Int) - (visibleLen footer : Int)) 2)).toNat ' '
        ++ chalkDim footer)

/-- Does the integer point `q` land on the grid cell `p` (bounds check
included)? -/
def hitsAt (q : Int × Int) (p : Nat × Nat) : Prop :=
  0 ≤ q.1 ∧ q.1 < (sizeY : Int) ∧ 0 ≤ q.2 ∧ q.2 < (sizeX : Int)
    ∧ q.1.toNat = p.1 ∧ q.2.toNat = p.2

instance (q : Int × Int) (p : Nat × Nat) : Decidable (hitsAt q p) := by
  unfold hitsAt; infer_instance

/-- Cell `p` is sampled by the hand `(value, total, frac)`. -/
def HandHits (tg : Trig) (value total frac : Rat) (p : Nat × Nat) : Prop :=
  ∃ q ∈ handPoints tg value total frac, hitsAt q p

instance (tg : Trig) (value total frac : Rat) (p : Nat × Nat) :
    Decidable (HandHits tg value total frac p) := by
  unfold HandHits; infer_instance

/-- Concrete trigonometry instance used by witnesses. -/
def trivTrig : Trig := { sinT := fun _ => 0, cosT := fun _ => 1 }

/-- Concrete toy rendering capability used by witnesses: every art is the
single line `"##"`. -/
def toyFiglet : FigletSys := fun _ _ => [['#', '#']]

/-- Concrete wide toy capability used by witnesses: every art is one line
of fifty `#`. -/
def wideFiglet : FigletSys := fun _ _ => [List.replicate 50 '#']

/-! ### Predicates used by the board invariants -/

/-- `s` is self-contained for the ANSI scanner: stripping distributes over
any concatenation at `s`'s right boundary. -/
def CleanSeg (s : Str) : Prop :=
  ∀ t, stripAnsi (s ++ t) = stripAnsi s ++ stripAnsi t

/-- A well-formed board cell: self-contained for the scanner, exactly one
visible character, and no newline. -/
def CleanCell (s : Str) : Prop :=
  CleanSeg s ∧ (stripAnsi s).length = 1 ∧ '\n' ∉ s

/-- The board has 45 rows of 90 cells. -/
def BoardShape (b : Board) : Prop :=
  b.length = sizeY ∧ ∀ r ∈ b, r.length = sizeX

/-- Every cell of the board is well formed. -/
def BoardClean (b : Board) : Prop := ∀ r ∈ b, ∀ c ∈ r, CleanCell c

/-- The write `w` lands on the grid cell `p`. -/
def hitsCell (w : AWrite) (p : Nat × Nat) : Prop := hitsAt (w.1, w.2.1) p

instance (w : AWrite) (p : Nat × Nat) : Decidable (hitsCell w p) := by
  unfold hitsCell; infer_instance

/-- The glyphs of an analog character set are printable cell contents. -/
def CharsOk (ch : AnalogChars) : Prop :=
  (ch.dialHour ≠ '\x1b' ∧ ch.dialHour ≠ '\n' ∧ ch.dialHour ≠ ' ')
  ∧ (ch.dialMinute ≠ '\x1b' ∧ ch.dialMinute ≠ '\n' ∧ ch.dialMinute ≠ ' ')
  ∧ (ch.dialOther ≠ '\x1b' ∧ ch.dialOther ≠ '\n' ∧ ch.dialOther ≠ ' ')
  ∧ (ch.handHour ≠ '\x1b' ∧ ch.handHour ≠ '\n' ∧ ch.handHour ≠ ' ')
  ∧ (ch.handMinute ≠ '\x1b' ∧ ch.handMinute ≠ '\n' ∧ ch.handMinute ≠ ' ')
  ∧ (ch.handSecond ≠ '\x1b' ∧ ch.handSecond ≠ '\n' ∧ ch.handSecond ≠ ' ')
  ∧ (ch.center ≠ '\x1b' ∧ ch.center ≠ '\n' ∧ ch.center ≠ ' ')

/-! ## Lemmas: decimal notation -/

theorem natToStrAux_small {fuel n : Nat} (h : n < 10) :
    natToStrAux fuel n = [digitChar n] := by
  cases fuel with
  | zero => simp [natToStrAux, Nat.mod_eq_of_lt h]
  | succ f => simp [natToStrAux, h]

theorem natToStrAux_succ {fuel n : Nat} (h : ¬ n < 10) :
    natToStrAux (fuel + 1) n = natToStrAux fuel (n / 10) ++ [digitChar (n % 10)] := by
  simp [natToStrAux, h]

theorem natToStrAux_fuel {n : Nat} : ∀ {fuel : Nat}, n ≤ fuel →
    natToStrAux fuel n = natToStrAux n n := by
  induction n using Nat.strong_induction_on with
  | _ n ih =>
    intro fuel hf
    by_cases h : n < 10
    · rw [natToStrAux_small h, natToStrAux_small h]
    · have hd : n / 10 < n := Nat.div_lt_self (by omega) (by omega)
      have e1 : ∀ f : Nat, n ≤ f + 1 →
          natToStrAux (f + 1) n = natToStrAux (n / 10) (n / 10) ++ [digitChar (n % 10)] := by
        intro f hf2
        rw [natToStrAux_succ h, ih (n / 10) hd (show n / 10 ≤ f by omega)]
      calc natToStrAux fuel n
          = natToStrAux ((fuel - 1) + 1) n := by congr 1; omega
        _ = natToStrAux (n / 10) (n / 10) ++ [digitChar (n % 10)] := e1 _ (by omega)
        _ = natToStrAux ((n - 1) + 1) n := (e1 _ (by omega)).symm
        _ = natToStrAux n n := by congr 1; omega

theorem natToStr_lt {n : Nat} (h : n < 10) : natToStr n = [digitChar n] := by
  rw [natToStr]; exact natToStrAux_small h

theorem natToStr_ge {n : Nat} (h : ¬ n < 10) :
    natToStr n = natToStr (n / 10) ++ [digitChar (n % 10)] := by
  have hd : n / 10 ≤ n - 1 := by omega
  calc natToStr n = natToStrAux ((n - 1) + 1) n := by rw [natToStr]; congr 1; omega
    _ = natToStrAux (n - 1) (n / 10) ++ [digitChar (n % 10)] := natToStrAux_succ h
    _ = natToStr (n / 10) ++ [digitChar (n % 10)] := by
        rw [natToStrAux_fuel hd, natToStr]

theorem natToStr_ne_nil (n : Nat) : natToStr n ≠ [] := by
  by_cases h : n < 10
  · rw [natToStr_lt h]; simp
  · rw [natToStr_ge h]; simp

theorem natToStr_length_le_two {n : Nat} (h : n < 100) : (natToStr n).length ≤ 2 := by
  by_cases h1 : n < 10
  · simp [natToStr_lt h1]
  · have h2 : n / 10 < 10 := by omega
    simp [natToStr_ge h1, natToStr_lt h2]

theorem natToStr_length_ge_three {n : Nat} (h : 100 ≤ n) : 3 ≤ (natToStr n).length := by
  have h1 : ¬ n < 10 := by omega
  have h2 : ¬ n / 10 < 10 := by omega
  have h3 := natToStr_ne_nil (n / 10 / 10)
  rw [natToStr_ge h1, natToStr_ge h2]
  have : 0 < (natToStr (n / 10 / 10)).length := List.length_pos.mpr h3
  simp [List.length_append]
  omega

theorem mem_natToStr {c : Char} {n : Nat} (h : c ∈ natToStr n) :
    ∃ k, k ≤ 9 ∧ c = digitChar k := by
  induction n using Nat.strong_induction_on with
  | _ n ih =>
    by_cases h1 : n < 10
    · rw [natToStr_lt h1] at h
      exact ⟨n, by omega, by simpa using h⟩
    · rw [natToStr_ge h1] at h
      rcases List.mem_append.mp h with h2 | h2
      · exact ih (n / 10) (Nat.div_lt_self (by omega) (by omega)) h2
      · exact ⟨n % 10, by omega, by simpa using h2⟩

theorem mem_padStart2_natToStr {c : Char} {n : Nat}
    (h : c ∈ padStart2 (natToStr n)) : ∃ k, k ≤ 9 ∧ c = digitChar k := by
  rcases List.mem_append.mp h with h2 | h2
  · exact ⟨0, by omega, by simpa using (List.eq_of_mem_replicate h2)⟩
  · exact mem_natToStr h2

theorem digitChar_ne_colon {k : Nat} (h : k ≤ 9) : digitChar k ≠ ':' := by
  interval_cases k <;> decide

theorem digitChar_ne_newline {k : Nat} (h : k ≤ 9) : digitChar k ≠ '\n' := by
  interval_cases k <;> decide

theorem digitChar_ne_esc {k : Nat} (h : k ≤ 9) : digitChar k ≠ '\x1b' := by
  interval_cases k <;> decide

theorem digitChar_ne_space {k : Nat} (h : k ≤ 9) : digitChar k ≠ ' ' := by
  interval_cases k <;> decide

theorem colon_not_mem_padStart2_natToStr (n : Nat) : ':' ∉ padStart2 (natToStr n) := by
  intro h
  obtain ⟨k, hk, he⟩ := mem_padStart2_natToStr h
  exact digitChar_ne_colon hk he.symm

theorem natToStr_eq_single_zero {n : Nat} (h : natToStr n = ['0']) : n = 0 := by
  by_cases h1 : n < 10
  · rw [natToStr_lt h1] at h
    have hd : digitChar n = '0' := by simpa using h
    interval_cases n
    · rfl
    all_goals exact absurd hd (by decide)
  · exfalso
    rw [natToStr_ge h1] at h
    have hpos : 0 < (natToStr (n / 10)).length := List.length_pos.mpr (natToStr_ne_nil _)
    have hlen := congrArg List.length h
    simp only [List.length_append, List.length_cons, List.length_nil] at hlen
    omega

theorem padStart2_length (s : Str) : (padStart2 s).length = max 2 s.length := by
  simp [padStart2]; omega

theorem padStart2_natToStr_eq_00_iff (n : Nat) :
    padStart2 (natToStr n) = ['0', '0'] ↔ n = 0 := by
  constructor
  · intro h
    by_cases h1 : n < 10
    · rw [natToStr_lt h1] at h
      have : digitChar n = '0' := by
        simp [padStart2, natToStr_lt h1] at h
        simpa [List.replicate] using h
      interval_cases n <;> first | rfl | (exfalso; revert this; decide)
    · exfalso
      have hge2 : 2 ≤ (natToStr n).length := by
        rw [natToStr_ge h1]
        have := List.length_pos.mpr (natToStr_ne_nil (n / 10))
        simp only [List.length_append, List.length_cons, List.length_nil]
        omega
      have hlen2 : (natToStr n).length = 2 := by
        have := congrArg List.length h
        rw [padStart2_length] at this
        simp at this
        omega
      rw [natToStr_ge h1] at h hlen2
      have hlen1 : (natToStr (n / 10)).length = 1 := by
        simp [List.length_append] at hlen2
        omega
      have hpad : padStart2 (natToStr (n / 10) ++ [digitChar (n % 10)])
          = natToStr (n / 10) ++ [digitChar (n % 10)] := by
        simp [padStart2, List.length_append, hlen1]
      rw [hpad] at h
      obtain ⟨c, hc⟩ := List.length_eq_one.mp hlen1
      rw [hc] at h
      simp at h
      have : natToStr (n / 10) = ['0'] := by rw [hc, h.1]
      have := natToStr_eq_single_zero this
      omega
  · intro h
    subst h
    decide

/-! ## Lemmas: split and join -/

theorem splitOnCh_ne_nil (sep : Char) (s : Str) : splitOnCh sep s ≠ [] := by
  cases s with
  | nil => simp [splitOnCh]
  | cons c rest =>
    rw [splitOnCh]
    split
    · simp
    · split <;> simp

theorem splitOnCh_not_mem {sep : Char} {s : Str} (h : sep ∉ s) :
    splitOnCh sep s = [s] := by
  induction s with
  | nil => rfl
  | cons c rest ih =>
    have hc : ¬ c = sep := by
      intro he; exact h (he ▸ List.mem_cons_self c rest)
    have hr : sep ∉ rest := fun hm => h (List.mem_cons_of_mem c hm)
    rw [splitOnCh]
    simp only [if_neg hc, ih hr]

theorem splitOnCh_append {sep : Char} {a : Str} (t : Str) (h : sep ∉ a) :
    splitOnCh sep (a ++ sep :: t) = a :: splitOnCh sep t := by
  induction a with
  | nil => simp [splitOnCh]
  | cons c rest ih =>
    have hc : ¬ c = sep := by
      intro he; exact h (he ▸ List.mem_cons_self c rest)
    have hr : sep ∉ rest := fun hm => h (List.mem_cons_of_mem c hm)
    rw [List.cons_append, splitOnCh, if_neg hc, ih hr]

theorem joinNl_cons {l : Str} {ls : List Str} (h : ls ≠ []) :
    joinNl (l :: ls) = l ++ '\n' :: joinNl ls := by
  cases ls with
  | nil => exact absurd rfl h
  | cons l2 ls2 => rfl

theorem splitOnCh_joinNl {ls : List Str} (hne : ls ≠ [])
    (h : ∀ l ∈ ls, '\n' ∉ l) : splitOnCh '\n' (joinNl ls) = ls := by
  induction ls with
  | nil => exact absurd rfl hne
  | cons l rest ih =>
    cases rest with
    | nil =>
      simp only [joinNl]
      exact splitOnCh_not_mem (h l (List.mem_cons_self l []))
    | cons l2 rest2 =>
      rw [joinNl_cons (by simp)]
      rw [splitOnCh_append _ (h l (List.mem_cons_self l _))]
      congr 1
      exact ih (by simp) (fun x hx => h x (List.mem_cons_of_mem l hx))

/-! ## Claim C1 -/

/-- Claim C1: `formatDuration` satisfies the spec's ceiling algorithm.
For every `ms ≥ 0` the output is built from
`totalSeconds = ceil(ms/1000)` with `seconds = totalSeconds % 60`,
`minutes = floor(totalSeconds/60) % 60`, `hours = floor(totalSeconds/3600)`
(not wrapped to 24), each field zero-padded to at least two characters;
parsing the fields back to seconds gives at least `ms/1000`
(`1000 * parsedSeconds ≥ ms`), and for positive `ms` the output is never
`"00:00:00"`. -/
theorem formatDuration_ceiling_spec (ms : Nat) :
    formatDuration ms =
      padStart2 (natToStr ((ms + 999) / 1000 / 3600))
        ++ ':' :: padStart2 (natToStr ((ms + 999) / 1000 / 60 % 60))
        ++ ':' :: padStart2 (natToStr ((ms + 999) / 1000 % 60))
    ∧ ms ≤ 1000 * (3600 * ((ms + 999) / 1000 / 3600)
        + 60 * ((ms + 999) / 1000 / 60 % 60) + (ms + 999) / 1000 % 60)
    ∧ (0 < ms → formatDuration ms ≠ ("00:00:00").data) := by
  refine ⟨rfl, by omega, ?_⟩
  intro hms heq
  have h1 : formatDuration ms =
      padStart2 (natToStr ((ms + 999) / 1000 / 3600))
        ++ ':' :: padStart2 (natToStr ((ms + 999) / 1000 / 60 % 60))
        ++ ':' :: padStart2 (natToStr ((ms + 999) / 1000 % 60)) := rfl
  rw [h1] at heq
  have ht1 : 1 ≤ (ms + 999) / 1000 := by omega
  have hmlen : (padStart2 (natToStr ((ms + 999) / 1000 / 60 % 60))).length = 2 := by
    rw [padStart2_length]
    have := natToStr_length_le_two (show (ms + 999) / 1000 / 60 % 60 < 100 by omega)
    omega
  have hslen : (padStart2 (natToStr ((ms + 999) / 1000 % 60))).length = 2 := by
    rw [padStart2_length]
    have := natToStr_length_le_two (show (ms + 999) / 1000 % 60 < 100 by omega)
    omega
  by_cases hh : (ms + 999) / 1000 / 3600 < 100
  · have hhlen : (padStart2 (natToStr ((ms + 999) / 1000 / 3600))).length = 2 := by
      rw [padStart2_length]
      have := natToStr_length_le_two hh
      omega
    obtain ⟨a, b, hab⟩ := List.length_eq_two.mp hhlen
    obtain ⟨c, d, hcd⟩ := List.length_eq_two.mp hmlen
    obtain ⟨e, f, hef⟩ := List.length_eq_two.mp hslen
    rw [hab, hcd, hef] at heq
    simp at heq
    obtain ⟨ha, hb, hc, hd, he, hf⟩ := heq
    have hzh : (ms + 999) / 1000 / 3600 = 0 := by
      apply (padStart2_natToStr_eq_00_iff _).mp
      rw [hab, ha, hb]
    have hzm : (ms + 999) / 1000 / 60 % 60 = 0 := by
      apply (padStart2_natToStr_eq_00_iff _).mp
      rw [hcd, hc, hd]
    have hzs : (ms + 999) / 1000 % 60 = 0 := by
      apply (padStart2_natToStr_eq_00_iff _).mp
      rw [hef, he, hf]
    omega
  · have h3 : 3 ≤ (natToStr ((ms + 999) / 1000 / 3600)).length :=
      natToStr_length_ge_three (by omega)
    have hlen := congrArg List.length heq
    have h8 : (("00:00:00").data).length = 8 := rfl
    rw [h8] at hlen
    simp only [List.length_append, List.length_cons, padStart2_length] at hlen
    omega

/-- Witness for C1 at `ms = 1500`. -/
theorem formatDuration_ceiling_spec_witness :
    0 < 1500 ∧ formatDuration 1500 ≠ ("00:00:00").data :=
  ⟨by decide, (formatDuration_ceiling_spec 1500).2.2 (by decide)⟩

/-! ## Claim C10 -/

/-- Claim C10: `formatDuration ms` has the 8-character `"HH:MM:SS"` shape
iff `ceil(ms/1000) < 360000` (hours at most 99); splitting the output on
`':'` always yields exactly the three padded fields, and from 100 hours on
the hours field is three or more characters, so the output no longer has
three two-character components. -/
theorem formatDuration_shape (ms : Nat) :
    ((formatDuration ms).length = 8 ↔ (ms + 999) / 1000 < 360000)
    ∧ splitOnCh ':' (formatDuration ms) =
        [padStart2 (natToStr ((ms + 999) / 1000 / 3600)),
         padStart2 (natToStr ((ms + 999) / 1000 / 60 % 60)),
         padStart2 (natToStr ((ms + 999) / 1000 % 60))]
    ∧ (360000 ≤ (ms + 999) / 1000 →
        3 ≤ (padStart2 (natToStr ((ms + 999) / 1000 / 3600))).length) := by
  have h1 : formatDuration ms =
      padStart2 (natToStr ((ms + 999) / 1000 / 3600))
        ++ ':' :: padStart2 (natToStr ((ms + 999) / 1000 / 60 % 60))
        ++ ':' :: padStart2 (natToStr ((ms + 999) / 1000 % 60)) := rfl
  have hmlen : (padStart2 (natToStr ((ms + 999) / 1000 / 60 % 60))).length = 2 := by
    rw [padStart2_length]
    have := natToStr_length_le_two (show (ms + 999) / 1000 / 60 % 60 < 100 by omega)
    omega
  have hslen : (padStart2 (natToStr ((ms + 999) / 1000 % 60))).length = 2 := by
    rw [padStart2_length]
    have := natToStr_length_le_two (show (ms + 999) / 1000 % 60 < 100 by omega)
    omega
  refine ⟨?_, ?_, ?_⟩
  · rw [h1]
    simp only [List.length_append, List.length_cons, hmlen, hslen, padStart2_length]
    constructor
    · intro hlen
      by_contra hge
      have := natToStr_length_ge_three
        (show 100 ≤ (ms + 999) / 1000 / 3600 by omega)
      omega
    · intro hlt
      have := natToStr_length_le_two
        (show (ms + 999) / 1000 / 3600 < 100 by omega)
      omega
  · rw [h1, List.append_assoc, List.cons_append,
      splitOnCh_append _ (colon_not_mem_padStart2_natToStr _),
      splitOnCh_append _ (colon_not_mem_padStart2_natToStr _),
      splitOnCh_not_mem (colon_not_mem_padStart2_natToStr _)]
  · intro hge
    rw [padStart2_length]
    have := natToStr_length_ge_three (show 100 ≤ (ms + 999) / 1000 / 3600 by omega)
    omega

/-- Witness for C10 at `ms = 360000000` (one hundred hours). -/
theorem formatDuration_shape_witness :
    360000 ≤ (360000000 + 999) / 1000
      ∧ 3 ≤ (padStart2 (natToStr ((360000000 + 999) / 1000 / 3600))).length :=
  ⟨by decide, (formatDuration_shape 360000000).2.2 (by decide)⟩

/-! ## Lemmas: running maxima -/

theorem foldl_max_init (l : List Nat) (a : Nat) : l.foldl max a = max a (maxList l) := by
  induction l generalizing a with
  | nil => simp [maxList]
  | cons x t ih =>
    have h1 : (x :: t).foldl max a = t.foldl max (max a x) := rfl
    have h2 : maxList (x :: t) = t.foldl max (max 0 x) := rfl
    rw [h1, h2, ih, ih]
    omega

theorem maxList_cons (x : Nat) (l : List Nat) : maxList (x :: l) = max x (maxList l) := by
  have : maxList (x :: l) = l.foldl max (max 0 x) := rfl
  rw [this, foldl_max_init]
  omega

theorem foldl_pair_max {α : Type} (f g : α → Nat) :
    ∀ (l : List α) (a b : Nat),
      l.foldl (fun acc x => (max acc.1 (f x), max acc.2 (g x))) (a, b)
        = (max a (maxList (l.map f)), max b (maxList (l.map g))) := by
  intro l
  induction l with
  | nil => intro a b; simp [maxList]
  | cons x t ih =>
    intro a b
    have h1 : (x :: t).foldl (fun acc y => (max acc.1 (f y), max acc.2 (g y))) (a, b)
        = t.foldl (fun acc y => (max acc.1 (f y), max acc.2 (g y))) (max a (f x), max b (g x)) := rfl
    rw [h1, ih]
    simp only [List.map_cons, maxList_cons, Prod.mk.injEq]
    omega

/-- `getFontMetrics`' miss computation matches the spec's three maxima. -/
theorem computeFontMetrics_spec (fl : Str → List Str) :
    computeFontMetrics fl =
      { blockWidth := specBlockWidth fl
        sepWidth := specSepWidth fl
        height := specHeight fl } := by
  have hacc : metricsAcc fl
      = (max 0 (maxList ((List.range 60).map fun i =>
            maxList ((fl (padStart2 (natToStr i))).map List.length))),
         max 0 (maxList ((List.range 60).map fun i => (fl (padStart2 (natToStr i))).length)))
      := foldl_pair_max _ _ _ 0 0
  unfold computeFontMetrics specBlockWidth specSepWidth specHeight artWidth specTwoDigitStrs
  rw [hacc]
  simp only [List.map_map, Function.comp_def, FontMetrics.mk.injEq]
  exact ⟨by omega, by trivial, by omega⟩

/-! ## Claim C6 -/

/-- Claim C6: on a miss `getFontMetrics(font)` measures `"00"`–`"59"` and
the separator, returning the maximum rendered width over the two-digit
strings as `blockWidth`, the separator's rendered width as `sepWidth`, and
the maximum rendered height over all of them as `height`, invoking the
underlying rendering capability 61 times; an immediately repeated call
returns the identical record and invokes the capability zero times. -/
theorem getFontMetrics_cache_spec (figletF : FigletSys) (font : Str) (cache : MetricsCache) :
    (getFontMetrics figletF (getFontMetrics figletF cache font).2.1 font).1
        = (getFontMetrics figletF cache font).1
    ∧ (getFontMetrics figletF (getFontMetrics figletF cache font).2.1 font).2.2 = 0
    ∧ (cache.lookup font = none →
        (getFontMetrics figletF cache font).2.2 = 61
        ∧ (getFontMetrics figletF cache font).1.blockWidth = specBlockWidth (figletF font)
        ∧ (getFontMetrics figletF cache font).1.sepWidth = specSepWidth (figletF font)
        ∧ (getFontMetrics figletF cache font).1.height = specHeight (figletF font)) := by
  cases hc : cache.lookup font with
  | some m =>
    have h1 : getFontMetrics figletF cache font = (m, cache, 0) := by
      unfold getFontMetrics; rw [hc]
    have key : getFontMetrics figletF (getFontMetrics figletF cache font).2.1 font
        = (m, cache, 0) := by
      rw [h1]; exact h1
    refine ⟨?_, ?_, ?_⟩
    · rw [key, h1]
    · rw [key]
    · exact fun hn => absurd hn (by simp)
  | none =>
    have h1 : getFontMetrics figletF cache font
        = (computeFontMetrics (figletF font),
           (font, computeFontMetrics (figletF font)) :: cache, 61) := by
      unfold getFontMetrics; rw [hc]
    have h2 : ((font, computeFontMetrics (figletF font)) :: cache).lookup font
        = some (computeFontMetrics (figletF font)) := by
      simp [List.lookup]
    have h3 : getFontMetrics figletF ((font, computeFontMetrics (figletF font)) :: cache) font
        = (computeFontMetrics (figletF font),
           (font, computeFontMetrics (figletF font)) :: cache, 0) := by
      unfold getFontMetrics; rw [h2]
    rw [h1]
    refine ⟨by rw [h3], by rw [h3], fun _ => ⟨rfl, ?_, ?_, ?_⟩⟩
    all_goals rw [computeFontMetrics_spec]

/-- Witness for C6: empty cache, toy capability. -/
theorem getFontMetrics_cache_spec_witness :
    (([] : MetricsCache).lookup (("Standard").data) = none)
    ∧ (getFontMetrics toyFiglet [] (("Standard").data)).2.2 = 61 :=
  ⟨rfl, ((getFontMetrics_cache_spec toyFiglet (("Standard").data) []).2.2 rfl).1⟩

/-! ## Lemmas: list indexing -/

theorem getD_range_map {α : Type} (f : Nat → α) (h i : Nat) (d : α) (hi : i < h) :
    ((List.range h).map f).getD i d = f i := by
  rw [List.getD_eq_getElem?_getD]
  simp [List.getElem?_map, List.getElem?_range hi]

theorem not_mem_getD {c : Char} {lines : List Str} (h : ∀ l ∈ lines, c ∉ l) (i : Nat) :
    c ∉ lines.getD i [] := by
  rcases Nat.lt_or_ge i lines.length with hi | hi
  · rw [List.getD_eq_getElem?_getD, List.getElem?_eq_getElem hi]
    exact h _ (List.getElem_mem hi)
  · rw [List.getD_eq_getElem?_getD, List.getElem?_eq_none hi]
    simp

theorem not_mem_specPadLine {lines : List Str} (h : ∀ l ∈ lines, '\n' ∉ l)
    (w i : Nat) : '\n' ∉ specPadLine lines w i := by
  unfold specPadLine
  intro hmem
  rcases List.mem_append.mp hmem with hm | hm
  · rcases List.mem_append.mp hm with hm2 | hm2
    · exact absurd (List.eq_of_mem_replicate hm2) (by decide)
    · exact not_mem_getD h i hm2
  · exact absurd (List.eq_of_mem_replicate hm) (by decide)

/-! ## Claim C5 -/

set_option maxRecDepth 4000 in
/-- Claim C5: for every `timeText` of the `"HH:MM:SS"` shape (three
two-character, separator-free components) and every font capability,
`getDigitalClock` produces exactly `metrics.height` rows, each being the
concatenation `hours | sep | minutes | sep | seconds` of blocks padded to
the uniform widths (`blockWidth` for digit pairs, `sepWidth` for the
separator) with `floor(pad/2)` spaces left and the remainder right. -/
theorem getDigitalClock_spec (figletF : FigletSys) (font h2 m2 s2 : Str)
    (_hl2 : h2.length = 2) (_ml2 : m2.length = 2) (_sl2 : s2.length = 2)
    (hh : ':' ∉ h2) (hm : ':' ∉ m2) (hs : ':' ∉ s2)
    (hsep : figletF font ((":").data) ≠ [])
    (hnlh : ∀ l ∈ figletF font h2, '\n' ∉ l)
    (hnlm : ∀ l ∈ figletF font m2, '\n' ∉ l)
    (hnls : ∀ l ∈ figletF font s2, '\n' ∉ l)
    (hnlsep : ∀ l ∈ figletF font ((":").data), '\n' ∉ l) :
    getDigitalClock figletF (h2 ++ ':' :: (m2 ++ ':' :: s2)) font
      = joinNl (specDigitalLines (figletF font) (computeFontMetrics (figletF font)) h2 m2 s2)
    ∧ (splitOnCh '\n' (getDigitalClock figletF (h2 ++ ':' :: (m2 ++ ':' :: s2)) font)).length
      = (computeFontMetrics (figletF font)).height := by
  have hparts : splitOnCh ':' (h2 ++ ':' :: (m2 ++ ':' :: s2)) = [h2, m2, s2] := by
    rw [splitOnCh_append _ hh, splitOnCh_append _ hm, splitOnCh_not_mem hs]
  have hheight : 1 ≤ (computeFontMetrics (figletF font)).height := by
    have h0 : 1 ≤ (figletF font ((":").data)).length :=
      List.length_pos.mpr hsep
    rw [computeFontMetrics_spec]
    show 1 ≤ specHeight (figletF font)
    unfold specHeight
    omega
  have key : ∀ M : FontMetrics,
      joinNl ((List.range M.height).map fun i =>
        (padBlockLines M.height (figletF font h2) M.blockWidth).getD i []
          ++ (padBlockLines M.height (figletF font ((":").data)) M.sepWidth).getD i []
          ++ (padBlockLines M.height (figletF font m2) M.blockWidth).getD i []
          ++ (padBlockLines M.height (figletF font ((":").data)) M.sepWidth).getD i []
          ++ (padBlockLines M.height (figletF font s2) M.blockWidth).getD i [])
      = joinNl (specDigitalLines (figletF font) M h2 m2 s2) := by
    intro M
    unfold specDigitalLines
    congr 1
    apply List.map_congr_left
    intro i hi
    have hilt : i < M.height := List.mem_range.mp hi
    have hb : ∀ (lines : List Str) (w : Nat),
        (padBlockLines M.height lines w).getD i [] = specPadLine lines w i := by
      intro lines w
      have hpb : padBlockLines M.height lines w
          = (List.range M.height).map (fun j => specPadLine lines w j) := rfl
      rw [hpb, getD_range_map _ _ _ _ hilt]
    simp only [hb]
  have hgd : getDigitalClock figletF (h2 ++ ':' :: (m2 ++ ':' :: s2)) font
      = joinNl (specDigitalLines (figletF font) (computeFontMetrics (figletF font)) h2 m2 s2) := by
    rw [show getDigitalClock figletF (h2 ++ ':' :: (m2 ++ ':' :: s2)) font
        = joinNl ((List.range (computeFontMetrics (figletF font)).height).map fun i =>
          (padBlockLines (computeFontMetrics (figletF font)).height (figletF font
              ((splitOnCh ':' (h2 ++ ':' :: (m2 ++ ':' :: s2))).getD 0 []))
              (computeFontMetrics (figletF font)).blockWidth).getD i []
            ++ (padBlockLines (computeFontMetrics (figletF font)).height (figletF font ((":").data))
              (computeFontMetrics (figletF font)).sepWidth).getD i []
            ++ (padBlockLines (computeFontMetrics (figletF font)).height (figletF font
              ((splitOnCh ':' (h2 ++ ':' :: (m2 ++ ':' :: s2))).getD 1 []))
              (computeFontMetrics (figletF font)).blockWidth).getD i []
            ++ (padBlockLines (computeFontMetrics (figletF font)).height (figletF font ((":").data))
              (computeFontMetrics (figletF font)).sepWidth).getD i []
            ++ (padBlockLines (computeFontMetrics (figletF font)).height (figletF font
              ((splitOnCh ':' (h2 ++ ':' :: (m2 ++ ':' :: s2))).getD 2 []))
              (computeFontMetrics (figletF font)).blockWidth).getD i []) from rfl]
    rw [hparts]
    simp only [List.getD_cons_zero, List.getD_cons_succ]
    exact key _
  refine ⟨hgd, ?_⟩
  rw [hgd]
  have hne : specDigitalLines (figletF font) (computeFontMetrics (figletF font)) h2 m2 s2 ≠ [] := by
    unfold specDigitalLines
    intro he
    have hl := congrArg List.length he
    simp only [List.length_map, List.length_range, List.length_nil] at hl
    omega
  have hnl : ∀ l ∈ specDigitalLines (figletF font) (computeFontMetrics (figletF font)) h2 m2 s2,
      '\n' ∉ l := by
    intro l hl
    unfold specDigitalLines at hl
    obtain ⟨i, _, rfl⟩ := List.mem_map.mp hl
    intro hmem
    rcases List.mem_append.mp hmem with h5 | h5
    · rcases List.mem_append.mp h5 with h4 | h4
      · rcases List.mem_append.mp h4 with h3 | h3
        · rcases List.mem_append.mp h3 with h2' | h2'
          · exact not_mem_specPadLine hnlh _ _ h2'
          · exact not_mem_specPadLine hnlsep _ _ h2'
        · exact not_mem_specPadLine hnlm _ _ h3
      · exact not_mem_specPadLine hnlsep _ _ h4
    · exact not_mem_specPadLine hnls _ _ h5
  rw [splitOnCh_joinNl hne hnl]
  unfold specDigitalLines
  simp

/-- Witness for C5 with the toy capability at `"12:34:56"`. -/
theorem getDigitalClock_spec_witness :
    getDigitalClock toyFiglet (("12").data ++ ':' :: (("34").data ++ ':' :: ("56").data))
        (("Standard").data)
      = joinNl (specDigitalLines (toyFiglet (("Standard").data))
          (computeFontMetrics (toyFiglet (("Standard").data)))
          (("12").data) (("34").data) (("56").data)) :=
  (getDigitalClock_spec toyFiglet (("Standard").data) (("12").data) (("34").data) (("56").data)
    (by decide) (by decide) (by decide) (by decide) (by decide) (by decide)
    (by decide) (by decide) (by decide) (by decide) (by decide)).1

/-! ## Lemmas: the ANSI scanner -/

theorem stripAnsi_nil : stripAnsi [] = [] := by
  simp [stripAnsi, stripAnsiAux]

theorem stripAnsi_cons_ne {c : Char} (h : c ≠ '\x1b') (t : Str) :
    stripAnsi (c :: t) = c :: stripAnsi t := by
  unfold stripAnsi
  simp [stripAnsiAux, h]

theorem stripAnsiAux_true_through {l : Str} (h : 'm' ∉ l) (t : Str) :
    stripAnsiAux true (l ++ 'm' :: t) = stripAnsiAux false t := by
  induction l with
  | nil => simp [stripAnsiAux]
  | cons c l2 ih =>
    have hc : ¬ c = 'm' := fun he => h (he ▸ List.mem_cons_self c l2)
    have h2 : 'm' ∉ l2 := fun hm => h (List.mem_cons_of_mem c hm)
    simp only [List.cons_append, stripAnsiAux, if_neg hc]
    exact ih h2

theorem stripAnsi_sgr_append {code : Str} (h : 'm' ∉ code) (t : Str) :
    stripAnsi (sgr code ++ t) = stripAnsi t := by
  have he : sgr code ++ t = '\x1b' :: '[' :: (code ++ 'm' :: t) := by simp [sgr]
  rw [stripAnsi, he]
  rw [show stripAnsiAux false ('\x1b' :: '[' :: (code ++ 'm' :: t))
      = stripAnsiAux true (code ++ 'm' :: t) from by simp [stripAnsiAux]]
  rw [stripAnsiAux_true_through h]
  rfl

theorem stripAnsi_sgr {code : Str} (h : 'm' ∉ code) : stripAnsi (sgr code) = [] := by
  have h2 := stripAnsi_sgr_append h []
  rw [List.append_nil] at h2
  rw [h2, stripAnsi_nil]

theorem cleanSeg_sgr {code : Str} (h : 'm' ∉ code) : CleanSeg (sgr code) := by
  intro t
  rw [stripAnsi_sgr_append h, stripAnsi_sgr h, List.nil_append]

theorem stripAnsi_no_esc {s : Str} (h : '\x1b' ∉ s) : stripAnsi s = s := by
  induction s with
  | nil => exact stripAnsi_nil
  | cons c s2 ih =>
    have hc : c ≠ '\x1b' := fun he => h (he ▸ List.mem_cons_self c s2)
    rw [stripAnsi_cons_ne hc, ih (fun hm => h (List.mem_cons_of_mem c hm))]

theorem cleanSeg_no_esc {s : Str} (h : '\x1b' ∉ s) : CleanSeg s := by
  induction s with
  | nil => intro t; rw [List.nil_append, stripAnsi_nil, List.nil_append]
  | cons c s2 ih =>
    intro t
    have hc : c ≠ '\x1b' := fun he => h (he ▸ List.mem_cons_self c s2)
    have h2 : '\x1b' ∉ s2 := fun hm => h (List.mem_cons_of_mem c hm)
    rw [List.cons_append, stripAnsi_cons_ne hc, stripAnsi_cons_ne hc, ih h2,
      List.cons_append]

theorem cleanSeg_append {a b : Str} (ha : CleanSeg a) (hb : CleanSeg b) :
    CleanSeg (a ++ b) := by
  intro t
  calc stripAnsi (a ++ b ++ t) = stripAnsi (a ++ (b ++ t)) := by rw [List.append_assoc]
    _ = stripAnsi a ++ stripAnsi (b ++ t) := ha _
    _ = stripAnsi a ++ (stripAnsi b ++ stripAnsi t) := by rw [hb]
    _ = stripAnsi a ++ stripAnsi b ++ stripAnsi t := by rw [List.append_assoc]
    _ = stripAnsi (a ++ b) ++ stripAnsi t := by rw [ha]

theorem cleanSeg_wrap {o c s : Str} (ho : 'm' ∉ o) (hc : 'm' ∉ c) (hs : CleanSeg s) :
    CleanSeg (wrap o c s) :=
  cleanSeg_append (cleanSeg_append (cleanSeg_sgr ho) hs) (cleanSeg_sgr hc)

theorem stripAnsi_wrap {o c s : Str} (ho : 'm' ∉ o) (hc : 'm' ∉ c) (hs : CleanSeg s) :
    stripAnsi (wrap o c s) = stripAnsi s := by
  unfold wrap
  rw [List.append_assoc, stripAnsi_sgr_append ho, hs, stripAnsi_sgr hc, List.append_nil]

theorem not_mem_sgr {code : Str} {ch : Char} (h1 : ch ≠ '\x1b') (h2 : ch ≠ '[')
    (h3 : ch ≠ 'm') (h4 : ch ∉ code) : ch ∉ sgr code := by
  intro hm
  simp only [sgr, List.mem_cons, List.mem_append] at hm
  rcases hm with (he | he | he) | he
  · exact h1 he
  · exact h2 he
  · exact h4 he
  · exact h3 (by simpa using he)

theorem cleanCell_single {g : Char} (h1 : g ≠ '\x1b') (h2 : g ≠ '\n') : CleanCell [g] := by
  refine ⟨cleanSeg_no_esc (by simpa using Ne.symm h1), ?_, by simpa using Ne.symm h2⟩
  rw [stripAnsi_no_esc (by simpa using Ne.symm h1)]
  rfl

theorem cleanCell_wrap {o c s : Str} (ho : 'm' ∉ o ∧ '\n' ∉ o)
    (hc : 'm' ∉ c ∧ '\n' ∉ c) (hs : CleanCell s) : CleanCell (wrap o c s) := by
  obtain ⟨hseg, hlen, hnl⟩ := hs
  refine ⟨cleanSeg_wrap ho.1 hc.1 hseg, ?_, ?_⟩
  · rw [stripAnsi_wrap ho.1 hc.1 hseg]; exact hlen
  · intro hm
    simp only [wrap, List.mem_append] at hm
    rcases hm with (hm | hm) | hm
    · exact not_mem_sgr (by decide) (by decide) (by decide) ho.2 hm
    · exact hnl hm
    · exact not_mem_sgr (by decide) (by decide) (by decide) hc.2 hm

theorem stripAnsi_wrap_single {o c : Str} {g : Char} (ho : 'm' ∉ o) (hc : 'm' ∉ c)
    (hg : g ≠ '\x1b') : stripAnsi (wrap o c [g]) = [g] := by
  rw [stripAnsi_wrap ho hc (cleanSeg_no_esc (by simpa using Ne.symm hg))]
  exact stripAnsi_no_esc (by simpa using Ne.symm hg)

/-! ## Lemmas: the board -/

theorem getD_set_self' {α : Type} (l : List α) (i : Nat) (a d : α) (h : i < l.length) :
    (l.set i a).getD i d = a := by
  rw [List.getD_eq_getElem?_getD, List.getElem?_set_self h]
  rfl

theorem getD_set_ne' {α : Type} (l : List α) {i j : Nat} (h : i ≠ j) (a d : α) :
    (l.set i a).getD j d = l.getD j d := by
  rw [List.getD_eq_getElem?_getD, List.getElem?_set_ne h, ← List.getD_eq_getElem?_getD]

theorem getD_mem_of_lt {α : Type} (l : List α) (i : Nat) (d : α) (h : i < l.length) :
    l.getD i d ∈ l := by
  rw [List.getD_eq_getElem?_getD, List.getElem?_eq_getElem h]
  exact List.getElem_mem h

theorem initBoard_shape : BoardShape initBoard := by
  constructor
  · simp [initBoard]
  · intro r hr
    rw [List.eq_of_mem_replicate hr]
    simp

theorem getCell_initBoard {p : Nat × Nat} (hy : p.1 < sizeY) (hx : p.2 < sizeX) :
    getCell initBoard p = [' '] := by
  have h1 : initBoard.getD p.1 [] = List.replicate sizeX [' '] := by
    unfold initBoard
    rw [List.getD_eq_getElem?_getD, List.getElem?_replicate, if_pos hy]
    rfl
  unfold getCell
  rw [h1, List.getD_eq_getElem?_getD, List.getElem?_replicate, if_pos hx]
  rfl

theorem setCell_shape {b : Board} (hb : BoardShape b) (y x : Int) (v : Str) :
    BoardShape (setCell b y x v) := by
  unfold setCell
  split
  · rename_i hcond
    have h45 : sizeY = 45 := rfl
    have hylt : y.toNat < b.length := by rw [hb.1]; omega
    constructor
    · rw [List.length_set]; exact hb.1
    · intro r hr
      rcases List.mem_or_eq_of_mem_set hr with h2 | h2
      · exact hb.2 r h2
      · subst h2
        rw [List.length_set]
        exact hb.2 _ (getD_mem_of_lt _ _ _ hylt)
  · exact hb

theorem setCell_clean {b : Board} (hb : BoardClean b) {v : Str} (hv : CleanCell v)
    (y x : Int) : BoardClean (setCell b y x v) := by
  unfold setCell
  split
  · intro r hr
    rcases List.mem_or_eq_of_mem_set hr with h2 | h2
    · exact hb r h2
    · subst h2
      intro cel hc
      rcases List.mem_or_eq_of_mem_set hc with h3 | h3
      · rcases Nat.lt_or_ge y.toNat b.length with hyl | hyl
        · exact hb _ (getD_mem_of_lt _ _ _ hyl) _ h3
        · rw [List.getD_eq_getElem?_getD, List.getElem?_eq_none hyl] at h3
          cases h3
      · exact h3 ▸ hv
  · exact hb

theorem initBoard_clean : BoardClean initBoard := by
  intro r hr c hc
  rw [List.eq_of_mem_replicate hr] at hc
  rw [List.eq_of_mem_replicate hc]
  exact cleanCell_single (by decide) (by decide)

theorem getCell_setCell {b : Board} (hb : BoardShape b) (y x : Int) (v : Str)
    (p : Nat × Nat) :
    getCell (setCell b y x v) p = if hitsAt (y, x) p then v else getCell b p := by
  obtain ⟨p1, p2⟩ := p
  have h45 : sizeY = 45 := rfl
  have h90 : sizeX = 90 := rfl
  unfold setCell
  split
  · rename_i hcond
    have hylt : y.toNat < b.length := by rw [hb.1]; omega
    have hrow : (b.getD y.toNat []).length = sizeX :=
      hb.2 _ (getD_mem_of_lt _ _ _ hylt)
    by_cases hyp : y.toNat = p1
    · by_cases hxp : x.toNat = p2
      · have hhit : hitsAt (y, x) (p1, p2) :=
          ⟨hcond.1, hcond.2.1, hcond.2.2.1, hcond.2.2.2, hyp, hxp⟩
        rw [if_pos hhit]
        unfold getCell
        simp only
        rw [← hyp, ← hxp, getD_set_self' _ _ _ _ hylt,
          getD_set_self' _ _ _ _ (by rw [hrow]; omega)]
      · have hmiss : ¬ hitsAt (y, x) (p1, p2) := by
          intro hh; exact hxp hh.2.2.2.2.2
        rw [if_neg hmiss]
        unfold getCell
        simp only
        by_cases hyp2 : y.toNat = p1
        · rw [← hyp2, getD_set_self' _ _ _ _ hylt, getD_set_ne' _ hxp]
        · rw [getD_set_ne' _ hyp2]
    · have hmiss : ¬ hitsAt (y, x) (p1, p2) := by
        intro hh; exact hyp hh.2.2.2.2.1
      rw [if_neg hmiss]
      unfold getCell
      simp only
      rw [getD_set_ne' _ hyp]
  · rename_i hcond
    have hmiss : ¬ hitsAt (y, x) (p1, p2) := by
      intro hh
      exact hcond ⟨hh.1, hh.2.1, hh.2.2.1, hh.2.2.2.1⟩
    rw [if_neg hmiss]

theorem applyWrites_cons (w : AWrite) (ws : List AWrite) (b : Board) :
    applyWrites (w :: ws) b = applyWrites ws (setCell b w.1 w.2.1 w.2.2) := rfl

theorem applyWrites_append (ws1 ws2 : List AWrite) (b : Board) :
    applyWrites (ws1 ++ ws2) b = applyWrites ws2 (applyWrites ws1 b) := by
  unfold applyWrites
  exact List.foldl_append _ _ _ _

theorem applyWrites_shape (ws : List AWrite) {b : Board} (hb : BoardShape b) :
    BoardShape (applyWrites ws b) := by
  induction ws generalizing b with
  | nil => exact hb
  | cons w ws ih => exact ih (setCell_shape hb _ _ _)

theorem applyWrites_clean (ws : List AWrite) {b : Board} (hb : BoardClean b)
    (hws : ∀ w ∈ ws, CleanCell w.2.2) : BoardClean (applyWrites ws b) := by
  induction ws generalizing b with
  | nil => exact hb
  | cons w ws ih =>
    exact ih (setCell_clean hb (hws w (List.mem_cons_self w ws)) _ _)
      (fun w2 hw2 => hws w2 (List.mem_cons_of_mem w hw2))

theorem getCell_applyWrites (ws : List AWrite) {b : Board} (hb : BoardShape b)
    (p : Nat × Nat) :
    getCell (applyWrites ws b) p
      = (ws.filter fun w => decide (hitsCell w p)).foldl (fun _ w => w.2.2)
          (getCell b p) := by
  induction ws generalizing b with
  | nil => rfl
  | cons w ws ih =>
    rw [applyWrites_cons, ih (setCell_shape hb _ _ _), getCell_setCell hb]
    by_cases hw : hitsCell w p
    · rw [if_pos (show hitsAt (w.1, w.2.1) p from hw),
        List.filter_cons_of_pos (by simpa using hw)]
      rfl
    · rw [if_neg (show ¬ hitsAt (w.1, w.2.1) p from hw),
        List.filter_cons_of_neg (by simpa using hw)]

theorem foldl_pickLast_mem : ∀ (l : List AWrite) (i : Str), l ≠ [] →
    l.foldl (fun _ w => w.2.2) i ∈ l.map (fun w => w.2.2) := by
  intro l
  induction l with
  | nil => intro i h; exact absurd rfl h
  | cons w l ih =>
    intro i _
    cases l with
    | nil => simp [List.foldl]
    | cons w2 l2 =>
      rw [List.foldl_cons, List.map_cons]
      exact List.mem_cons_of_mem _ (ih _ (by simp))

theorem foldl_pickLast_const {v : Str} : ∀ (l : List AWrite) (i : Str),
    (∀ w ∈ l, w.2.2 = v) → l ≠ [] → l.foldl (fun _ w => w.2.2) i = v := by
  intro l
  induction l with
  | nil => intro i _ h; exact absurd rfl h
  | cons w l ih =>
    intro i hall _
    cases l with
    | nil => exact hall w (List.mem_cons_self w [])
    | cons w2 l2 =>
      rw [List.foldl_cons]
      exact ih _ (fun u hu => hall u (List.mem_cons_of_mem w hu)) (by simp)

theorem getCell_applyWrites_miss {ws : List AWrite} {b : Board} (hb : BoardShape b)
    {p : Nat × Nat} (h : ∀ w ∈ ws, ¬ hitsCell w p) :
    getCell (applyWrites ws b) p = getCell b p := by
  rw [getCell_applyWrites ws hb p]
  rw [List.filter_eq_nil_iff.mpr (fun w hw => by simpa using h w hw)]
  rfl

theorem getCell_applyWrites_last {ws : List AWrite} {b : Board} (hb : BoardShape b)
    {p : Nat × Nat} {v : Str} (hv : ∀ w ∈ ws, w.2.2 = v)
    (hh : ∃ w ∈ ws, hitsCell w p) :
    getCell (applyWrites ws b) p = v := by
  rw [getCell_applyWrites ws hb p]
  apply foldl_pickLast_const
  · intro w hw
    exact hv w (List.mem_of_mem_filter hw)
  · obtain ⟨w, hw, hhit⟩ := hh
    intro hnil
    have hmem : w ∈ ws.filter fun w => decide (hitsCell w p) :=
      List.mem_filter.mpr ⟨hw, by simpa using hhit⟩
    rw [hnil] at hmem
    cases hmem

theorem getCell_applyWrites_nonblank {ws : List AWrite}
    (hws : ∀ w ∈ ws, CleanCell w.2.2 ∧ stripAnsi w.2.2 ≠ [' '])
    {p : Nat × Nat} (hy : p.1 < sizeY) (hx : p.2 < sizeX) :
    (stripAnsi (getCell (applyWrites ws initBoard) p) ≠ [' ']
      ↔ ∃ w ∈ ws, hitsCell w p) := by
  rw [getCell_applyWrites ws initBoard_shape p, getCell_initBoard hy hx]
  by_cases hfil : (ws.filter fun w => decide (hitsCell w p)) = []
  · rw [hfil]
    simp only [List.foldl_nil]
    constructor
    · intro hne
      exact absurd (stripAnsi_no_esc (by decide)) hne
    · rintro ⟨w, hw, hhit⟩
      have hmem : w ∈ ws.filter fun w => decide (hitsCell w p) :=
        List.mem_filter.mpr ⟨hw, by simpa using hhit⟩
      rw [hfil] at hmem
      cases hmem
  · have hmem := foldl_pickLast_mem _ [' '] hfil
    obtain ⟨w, hw, hval⟩ := List.mem_map.mp hmem
    have hws2 := hws w (List.mem_of_mem_filter hw)
    constructor
    · intro _
      exact ⟨w, List.mem_of_mem_filter hw, by simpa using (List.mem_filter.mp hw).2⟩
    · intro _
      rw [← hval]
      exact hws2.2

/-! ## Lemmas: the analog write lists -/

theorem glyphChars_ok : CharsOk glyphChars := by
  unfold CharsOk glyphChars
  decide

theorem standardChars_ok : CharsOk standardChars := by
  unfold CharsOk standardChars
  decide

/-- A single-wrapped glyph is a well-formed, non-blank cell value. -/
theorem cellVal_single {o c : Str} {g : Char}
    (h1 : 'm' ∉ o ∧ '\n' ∉ o) (h2 : 'm' ∉ c ∧ '\n' ∉ c)
    (hg : g ≠ '\x1b' ∧ g ≠ '\n' ∧ g ≠ ' ') :
    CleanCell (wrap o c [g]) ∧ stripAnsi (wrap o c [g]) ≠ [' '] := by
  refine ⟨cleanCell_wrap h1 h2 (cleanCell_single hg.1 hg.2.1), ?_⟩
  rw [stripAnsi_wrap_single h1.1 h2.1 hg.1]
  intro he
  exact hg.2.2 (by simpa using he)

/-- A doubly-wrapped glyph is a well-formed, non-blank cell value. -/
theorem cellVal_double {o1 c1 o2 c2 : Str} {g : Char}
    (h1 : 'm' ∉ o1 ∧ '\n' ∉ o1) (h2 : 'm' ∉ c1 ∧ '\n' ∉ c1)
    (h3 : 'm' ∉ o2 ∧ '\n' ∉ o2) (h4 : 'm' ∉ c2 ∧ '\n' ∉ c2)
    (hg : g ≠ '\x1b' ∧ g ≠ '\n' ∧ g ≠ ' ') :
    CleanCell (wrap o1 c1 (wrap o2 c2 [g]))
      ∧ stripAnsi (wrap o1 c1 (wrap o2 c2 [g])) ≠ [' '] := by
  have hinner := cellVal_single h3 h4 hg
  refine ⟨cleanCell_wrap h1 h2 hinner.1, ?_⟩
  rw [stripAnsi_wrap h1.1 h2.1 hinner.1.1, stripAnsi_wrap_single h3.1 h4.1 hg.1]
  intro he
  exact hg.2.2 (by simpa using he)

/-- A one-digit decimal string is a well-formed, non-blank cell value. -/
theorem cellVal_digit {n : Nat} (h : n < 10) :
    CleanCell (natToStr n) ∧ stripAnsi (natToStr n) ≠ [' '] := by
  rw [natToStr_lt h]
  have h9 : n ≤ 9 := by omega
  refine ⟨cleanCell_single (digitChar_ne_esc h9) (digitChar_ne_newline h9), ?_⟩
  rw [stripAnsi_no_esc (by simpa using Ne.symm (digitChar_ne_esc h9))]
  intro he
  exact digitChar_ne_space h9 (by simpa using he)

theorem clockNumerals_bounds {n : Nat} (h : n ∈ clockNumerals) : 1 ≤ n ∧ n ≤ 12 := by
  simp only [clockNumerals, List.mem_cons, List.not_mem_nil, or_false] at h
  rcases h with h | h | h | h | h | h | h | h | h | h | h | h <;> omega

theorem dialWrites_values {tg : Trig} {ch : AnalogChars} (hch : CharsOk ch) :
    ∀ w ∈ dialWrites tg ch, CleanCell w.2.2 ∧ stripAnsi w.2.2 ≠ [' '] := by
  intro w hw
  unfold dialWrites at hw
  rw [List.mem_map] at hw
  obtain ⟨k, _, rfl⟩ := hw
  simp only
  split
  · exact cellVal_double (by decide) (by decide) (by decide) (by decide) hch.1
  · split
    · exact cellVal_single (by decide) (by decide) hch.2.1
    · exact cellVal_single (by decide) (by decide) hch.2.2.1

theorem numberWrites_values {tg : Trig} :
    ∀ w ∈ numberWrites tg, CleanCell w.2.2 ∧ stripAnsi w.2.2 ≠ [' '] := by
  intro w hw
  unfold numberWrites at hw
  rw [List.mem_flatMap] at hw
  obtain ⟨pr, hpr, hw2⟩ := hw
  have hmem : pr.2 ∈ clockNumerals :=
    List.getElem?_mem (List.mem_enum_iff_getElem?.mp hpr)
  have hb := clockNumerals_bounds hmem
  simp only at hw2
  split at hw2
  · split at hw2
    · rcases List.mem_append.mp hw2 with h3 | h3
      · split at h3
        · simp only [List.mem_singleton] at h3
          subst h3
          exact cellVal_digit (by omega)
        · cases h3
      · simp only [List.mem_singleton] at h3
        subst h3
        exact cellVal_digit (by omega)
    · simp only [List.mem_singleton] at hw2
      subst hw2
      rename_i hnum
      exact cellVal_digit (by omega)
  · cases hw2

theorem handWrites_val_eq {tg : Trig} {value total frac : Rat} {v : Str} :
    ∀ w ∈ handWrites tg value total frac v, w.2.2 = v := by
  intro w hw
  unfold handWrites at hw
  rw [List.mem_map] at hw
  obtain ⟨q, _, rfl⟩ := hw
  rfl

theorem analogWrites_values {tg : Trig} {h m s : Nat} {ch : AnalogChars}
    (hch : CharsOk ch) :
    ∀ w ∈ analogWrites tg h m s ch, CleanCell w.2.2 ∧ stripAnsi w.2.2 ≠ [' '] := by
  intro w hw
  unfold analogWrites at hw
  rcases List.mem_append.mp hw with h5 | h5
  · rcases List.mem_append.mp h5 with h4 | h4
    · rcases List.mem_append.mp h4 with h3 | h3
      · rcases List.mem_append.mp h3 with h2 | h2
        · rcases List.mem_append.mp h2 with h1 | h1
          · exact dialWrites_values hch w h1
          · exact numberWrites_values w h1
        · rw [handWrites_val_eq w h2]
          exact cellVal_single (by decide) (by decide) hch.2.2.2.2.2.1
      · rw [handWrites_val_eq w h3]
        exact cellVal_double (by decide) (by decide) (by decide) (by decide) hch.2.2.2.2.1
    · rw [handWrites_val_eq w h4]
      exact cellVal_double (by decide) (by decide) (by decide) (by decide) hch.2.2.2.1
  · simp only [List.mem_singleton] at h5
    subst h5
    exact cellVal_single (by decide) (by decide) hch.2.2.2.2.2.2

/-! ## Claim C9 -/

theorem flatten_visible {row : List Str} (h : ∀ c ∈ row, CleanCell c) :
    (stripAnsi row.flatten).length = row.length := by
  induction row with
  | nil => rw [List.flatten_nil, stripAnsi_nil]; rfl
  | cons c r ih =>
    rw [List.flatten_cons]
    have hc := h c (List.mem_cons_self c r)
    rw [hc.1]
    rw [List.length_append, hc.2.1, ih (fun c2 hc2 => h c2 (List.mem_cons_of_mem c hc2))]
    simp only [List.length_cons]
    omega

theorem flatten_no_newline {row : List Str} (h : ∀ c ∈ row, '\n' ∉ c) :
    '\n' ∉ row.flatten := by
  intro hm
  obtain ⟨c, hc, hm2⟩ := List.mem_flatten.mp hm
  exact h c hc hm2

/-- Claim C9: for every trigonometry instance, time input, mode and glyph
set, the analog frame is exactly 45 lines, each of visible length exactly
90 after stripping the styling sequences. -/
theorem getAnalogClock_grid (tg : Trig) (dateOrMs : DateOrMs) (isTimer useGlyphs : Bool) :
    (splitOnCh '\n' (getAnalogClock tg dateOrMs isTimer useGlyphs)).map visibleLen
      = List.replicate 45 90 := by
  have hch : CharsOk (if useGlyphs then glyphChars else standardChars) := by
    cases useGlyphs
    · exact standardChars_ok
    · exact glyphChars_ok
  have hrepr : analogBoard tg dateOrMs isTimer useGlyphs
      = applyWrites (analogWrites tg (analogHMS dateOrMs isTimer).1
          (analogHMS dateOrMs isTimer).2.1 (analogHMS dateOrMs isTimer).2.2
          (if useGlyphs then glyphChars else standardChars)) initBoard := rfl
  have hshape : BoardShape (analogBoard tg dateOrMs isTimer useGlyphs) := by
    rw [hrepr]; exact applyWrites_shape _ initBoard_shape
  have hclean : BoardClean (analogBoard tg dateOrMs isTimer useGlyphs) := by
    rw [hrepr]
    exact applyWrites_clean _ initBoard_clean
      (fun w hw => (analogWrites_values hch w hw).1)
  have hrows : ∀ r ∈ analogBoard tg dateOrMs isTimer useGlyphs, r.length = sizeX :=
    hshape.2
  have hlen : (analogBoard tg dateOrMs isTimer useGlyphs).length = sizeY := hshape.1
  unfold getAnalogClock
  rw [splitOnCh_joinNl]
  · rw [List.eq_replicate_iff]
    constructor
    · simp [hlen]; rfl
    · intro b hb
      rw [List.map_map] at hb
      obtain ⟨row, hrow, rfl⟩ := List.mem_map.mp hb
      show visibleLen row.flatten = 90
      unfold visibleLen
      rw [flatten_visible (fun c hc => hclean row hrow c hc), hrows row hrow]
      rfl
  · intro he
    have := congrArg List.length he
    simp [hlen] at this
    have h45 : sizeY = 45 := rfl
    omega
  · intro l hl
    obtain ⟨row, hrow, rfl⟩ := List.mem_map.mp hl
    exact flatten_no_newline (fun c hc => (hclean row hrow c hc).2.2)

/-! ## Claim C8 -/

theorem dialWrites_pos (tg : Trig) (ch : AnalogChars) :
    (dialWrites tg ch).map (fun w => (w.1, w.2.1))
      = (List.range 180).map (fun k => (dialY tg (2 * k), dialX tg (2 * k))) := by
  unfold dialWrites
  rw [List.map_map]
  rfl

theorem handWrites_pos (tg : Trig) (value total frac : Rat) (v : Str) :
    (handWrites tg value total frac v).map (fun w => (w.1, w.2.1))
      = handPoints tg value total frac := by
  unfold handWrites
  rw [List.map_map]
  have he : (fun (q : Int × Int) => ((q.1, q.2, v).1, (q.1, q.2, v).2.1))
      = id := by
    funext q; rfl
  rw [show ((fun (w : AWrite) => (w.1, w.2.1)) ∘ fun (q : Int × Int) => (q.1, q.2, v))
      = id from he, List.map_id]

theorem analogWrites_pos_indep (tg : Trig) (h m s : Nat) (chA chB : AnalogChars) :
    (analogWrites tg h m s chA).map (fun w => (w.1, w.2.1))
      = (analogWrites tg h m s chB).map (fun w => (w.1, w.2.1)) := by
  unfold analogWrites
  simp only [List.map_append, List.map_cons, List.map_nil]
  rw [dialWrites_pos, dialWrites_pos, handWrites_pos, handWrites_pos, handWrites_pos,
    handWrites_pos, handWrites_pos, handWrites_pos]

theorem exists_hit_iff {ws1 ws2 : List AWrite}
    (h : ws1.map (fun w => (w.1, w.2.1)) = ws2.map (fun w => (w.1, w.2.1)))
    (p : Nat × Nat) :
    (∃ w ∈ ws1, hitsCell w p) ↔ ∃ w ∈ ws2, hitsCell w p := by
  have key : ∀ (ws : List AWrite), (∃ w ∈ ws, hitsCell w p) ↔
      ∃ q ∈ ws.map (fun w => (w.1, w.2.1)), hitsAt q p := by
    intro ws
    constructor
    · rintro ⟨w, hw, hh⟩
      exact ⟨(w.1, w.2.1), List.mem_map_of_mem _ hw, hh⟩
    · rintro ⟨q, hq, hh⟩
      obtain ⟨w, hw, rfl⟩ := List.mem_map.mp hq
      exact ⟨w, hw, hh⟩
  rw [key, key, h]

/-- Claim C8: glyph-set selection never changes geometry: with identical
inputs, the Standard and the Extended run leave exactly the same set of
grid cells non-blank (after stripping the styling sequences); the two
boards differ at most in which literal glyph occupies those cells. -/
theorem getAnalogClock_glyph_geometry (tg : Trig) (dateOrMs : DateOrMs) (isTimer : Bool)
    (y x : Nat) (hy : y < 45) (hx : x < 90) :
    (stripAnsi (getCell (analogBoard tg dateOrMs isTimer true) (y, x)) ≠ (" ").data
      ↔ stripAnsi (getCell (analogBoard tg dateOrMs isTimer false) (y, x)) ≠ (" ").data) := by
  have e1 : analogBoard tg dateOrMs isTimer true
      = applyWrites (analogWrites tg (analogHMS dateOrMs isTimer).1
          (analogHMS dateOrMs isTimer).2.1 (analogHMS dateOrMs isTimer).2.2
          glyphChars) initBoard := rfl
  have e2 : analogBoard tg dateOrMs isTimer false
      = applyWrites (analogWrites tg (analogHMS dateOrMs isTimer).1
          (analogHMS dateOrMs isTimer).2.1 (analogHMS dateOrMs isTimer).2.2
          standardChars) initBoard := rfl
  rw [e1, e2, show ((" ").data : Str) = [' '] from rfl]
  rw [getCell_applyWrites_nonblank (analogWrites_values glyphChars_ok) hy hx,
    getCell_applyWrites_nonblank (analogWrites_values standardChars_ok) hy hx]
  exact exists_hit_iff (analogWrites_pos_indep tg _ _ _ glyphChars standardChars) (y, x)

/-- Witness for C8 at the cell `(22, 60)`. -/
theorem getAnalogClock_glyph_geometry_witness :
    (22 : Nat) < 45 ∧ (60 : Nat) < 90
    ∧ (stripAnsi (getCell (analogBoard trivTrig (DateOrMs.ms 0) true true) (22, 60))
          ≠ (" ").data
        ↔ stripAnsi (getCell (analogBoard trivTrig (DateOrMs.ms 0) true false) (22, 60))
          ≠ (" ").data) :=
  ⟨by decide, by decide,
    getAnalogClock_glyph_geometry trivTrig (DateOrMs.ms 0) true 22 60 (by decide) (by decide)⟩

/-! ## Claim C7 -/

theorem handHits_to_write {tg : Trig} {value total frac : Rat} {v : Str}
    {p : Nat × Nat} (h : HandHits tg value total frac p) :
    ∃ w ∈ handWrites tg value total frac v, hitsCell w p := by
  obtain ⟨q, hq, hh⟩ := h
  exact ⟨(q.1, q.2, v), List.mem_map.mpr ⟨q, hq, rfl⟩, hh⟩

theorem write_to_handHits {tg : Trig} {value total frac : Rat} {v : Str}
    {p : Nat × Nat} (h : ∃ w ∈ handWrites tg value total frac v, hitsCell w p) :
    HandHits tg value total frac p := by
  obtain ⟨w, hw, hh⟩ := h
  obtain ⟨q, hq, rfl⟩ := List.mem_map.mp hw
  exact ⟨q, hq, hh⟩

theorem centerWrite_hits {v : Str} {p : Nat × Nat}
    (h : hitsCell ((centerY : Int), (centerX : Int), v) p) : p = (centerY, centerX) := by
  obtain ⟨p1, p2⟩ := p
  obtain ⟨-, -, -, -, h5, h6⟩ := h
  simp only at h5 h6
  rw [Prod.mk.injEq]
  constructor
  · rw [← h5]; rfl
  · rw [← h6]; rfl

/-- Claim C7: the hands are drawn second, then minute, then hour, so at
every grid cell sampled by more than one hand the later-drawn hand's
glyph is the final cell value — the hour hand wins wherever it overlaps,
the minute hand wins over the second hand — and the center cell always
holds the dedicated center glyph, written last. -/
theorem getAnalogClock_draw_order (tg : Trig) (dateOrMs : DateOrMs)
    (isTimer useGlyphs : Bool) (p : Nat × Nat) :
    (p ≠ (centerY, centerX) →
      HandHits tg (((analogHMS dateOrMs isTimer).1 : Rat)
          + ((analogHMS dateOrMs isTimer).2.1 : Rat) / 60) 12 (1/2) p →
      getCell (analogBoard tg dateOrMs isTimer useGlyphs) p
        = chalkRedBold [(if useGlyphs then glyphChars else standardChars).handHour])
    ∧ (p ≠ (centerY, centerX) →
      ¬ HandHits tg (((analogHMS dateOrMs isTimer).1 : Rat)
          + ((analogHMS dateOrMs isTimer).2.1 : Rat) / 60) 12 (1/2) p →
      HandHits tg ((analogHMS dateOrMs isTimer).2.1 : Rat) 60 (3/4) p →
      getCell (analogBoard tg dateOrMs isTimer useGlyphs) p
        = chalkGreenBold [(if useGlyphs then glyphChars else standardChars).handMinute])
    ∧ getCell (analogBoard tg dateOrMs isTimer useGlyphs) (centerY, centerX)
        = chalkWhite [(if useGlyphs then glyphChars else standardChars).center] := by
  have hrepr : analogBoard tg dateOrMs isTimer useGlyphs
      = applyWrites [((centerY : Int), (centerX : Int),
            chalkWhite [(if useGlyphs then glyphChars else standardChars).center])]
          (applyWrites (handWrites tg (((analogHMS dateOrMs isTimer).1 : Rat)
              + ((analogHMS dateOrMs isTimer).2.1 : Rat) / 60) 12 (1/2)
              (chalkRedBold [(if useGlyphs then glyphChars else standardChars).handHour]))
            (applyWrites (handWrites tg ((analogHMS dateOrMs isTimer).2.1 : Rat) 60 (3/4)
                (chalkGreenBold
                  [(if useGlyphs then glyphChars else standardChars).handMinute]))
              (applyWrites (handWrites tg ((analogHMS dateOrMs isTimer).2.2 : Rat) 60 (9/10)
                  (chalkBlue
                    [(if useGlyphs then glyphChars else standardChars).handSecond]))
                (applyWrites (dialWrites tg
                    (if useGlyphs then glyphChars else standardChars) ++ numberWrites tg)
                  initBoard)))) := by
    rw [show analogBoard tg dateOrMs isTimer useGlyphs
        = applyWrites (analogWrites tg (analogHMS dateOrMs isTimer).1
            (analogHMS dateOrMs isTimer).2.1 (analogHMS dateOrMs isTimer).2.2
            (if useGlyphs then glyphChars else standardChars)) initBoard from rfl]
    rw [show analogWrites tg (analogHMS dateOrMs isTimer).1
          (analogHMS dateOrMs isTimer).2.1 (analogHMS dateOrMs isTimer).2.2
          (if useGlyphs then glyphChars else standardChars)
        = ((((dialWrites tg (if useGlyphs then glyphChars else standardChars)
              ++ numberWrites tg)
            ++ handWrites tg ((analogHMS dateOrMs isTimer).2.2 : Rat) 60 (9/10)
              (chalkBlue [(if useGlyphs then glyphChars else standardChars).handSecond]))
            ++ handWrites tg ((analogHMS dateOrMs isTimer).2.1 : Rat) 60 (3/4)
              (chalkGreenBold
                [(if useGlyphs then glyphChars else standardChars).handMinute]))
            ++ handWrites tg (((analogHMS dateOrMs isTimer).1 : Rat)
                + ((analogHMS dateOrMs isTimer).2.1 : Rat) / 60) 12 (1/2)
              (chalkRedBold [(if useGlyphs then glyphChars else standardChars).handHour]))
            ++ [((centerY : Int), (centerX : Int),
              chalkWhite [(if useGlyphs then glyphChars else standardChars).center])]
        from rfl]
    rw [applyWrites_append, applyWrites_append, applyWrites_append, applyWrites_append]
  have hb0 : BoardShape (applyWrites (dialWrites tg
      (if useGlyphs then glyphChars else standardChars) ++ numberWrites tg) initBoard) :=
    applyWrites_shape _ initBoard_shape
  have hb1 : BoardShape (applyWrites (handWrites tg
      ((analogHMS dateOrMs isTimer).2.2 : Rat) 60 (9/10)
      (chalkBlue [(if useGlyphs then glyphChars else standardChars).handSecond])) _) :=
    applyWrites_shape _ hb0
  have hb2 : BoardShape (applyWrites (handWrites tg
      ((analogHMS dateOrMs isTimer).2.1 : Rat) 60 (3/4)
      (chalkGreenBold [(if useGlyphs then glyphChars else standardChars).handMinute])) _) :=
    applyWrites_shape _ hb1
  have hb3 : BoardShape (applyWrites (handWrites tg
      (((analogHMS dateOrMs isTimer).1 : Rat)
        + ((analogHMS dateOrMs isTimer).2.1 : Rat) / 60) 12 (1/2)
      (chalkRedBold [(if useGlyphs then glyphChars else standardChars).handHour])) _) :=
    applyWrites_shape _ hb2
  refine ⟨?_, ?_, ?_⟩
  · intro hp hhit
    rw [hrepr]
    rw [getCell_applyWrites_miss hb3
      (by rintro w hw
          simp only [List.mem_singleton] at hw
          subst hw
          intro hc
          exact hp (centerWrite_hits hc))]
    exact getCell_applyWrites_last hb2 (handWrites_val_eq)
      (handHits_to_write hhit)
  · intro hp hmiss hhit
    rw [hrepr]
    rw [getCell_applyWrites_miss hb3
      (by rintro w hw
          simp only [List.mem_singleton] at hw
          subst hw
          intro hc
          exact hp (centerWrite_hits hc))]
    rw [getCell_applyWrites_miss hb2
      (by intro w hw hc
          exact hmiss (write_to_handHits ⟨w, hw, hc⟩))]
    exact getCell_applyWrites_last hb1 (handWrites_val_eq)
      (handHits_to_write hhit)
  · rw [hrepr]
    rw [show applyWrites [((centerY : Int), (centerX : Int),
          chalkWhite [(if useGlyphs then glyphChars else standardChars).center])]
          (applyWrites (handWrites tg (((analogHMS dateOrMs isTimer).1 : Rat)
              + ((analogHMS dateOrMs isTimer).2.1 : Rat) / 60) 12 (1/2)
              (chalkRedBold [(if useGlyphs then glyphChars else standardChars).handHour])) _)
        = setCell (applyWrites (handWrites tg (((analogHMS dateOrMs isTimer).1 : Rat)
              + ((analogHMS dateOrMs isTimer).2.1 : Rat) / 60) 12 (1/2)
              (chalkRedBold [(if useGlyphs then glyphChars else standardChars).handHour])) _)
            (centerY : Int) (centerX : Int)
            (chalkWhite [(if useGlyphs then glyphChars else standardChars).center])
        from rfl]
    rw [getCell_setCell hb3]
    rw [if_pos (by decide)]

/-- Witness for C7: with the trivial trigonometry and a zero timer the
cell `(22, 60)` lies on the hour hand (and also on the minute hand, which
it overlaps) and receives the hour glyph. -/
theorem getAnalogClock_draw_order_witness :
    ((22 : Nat), (60 : Nat)) ≠ (centerY, centerX)
    ∧ HandHits trivTrig (((analogHMS (DateOrMs.ms 0) true).1 : Rat)
        + ((analogHMS (DateOrMs.ms 0) true).2.1 : Rat) / 60) 12 (1/2) (22, 60)
    ∧ getCell (analogBoard trivTrig (DateOrMs.ms 0) true false) (22, 60)
        = chalkRedBold [(if false then glyphChars else standardChars).handHour] := by
  have hne : ((22 : Nat), (60 : Nat)) ≠ (centerY, centerX) := by decide
  have hhms : analogHMS (DateOrMs.ms 0) true = (0, 0, 0) := rfl
  have hhit : HandHits trivTrig (((analogHMS (DateOrMs.ms 0) true).1 : Rat)
      + ((analogHMS (DateOrMs.ms 0) true).2.1 : Rat) / 60) 12 (1/2) (22, 60) := by
    rw [hhms]
    refine ⟨((22 : Int), (60 : Int)), ?_, by decide⟩
    unfold handPoints
    rw [List.mem_map]
    refine ⟨15, ?_, ?_⟩
    · rw [List.mem_range]
      norm_num
      decide
    · unfold handY handX handTurn trivTrig jsRound
      simp only [Prod.mk.injEq]
      constructor <;> norm_num
  exact ⟨hne, hhit,
    (getAnalogClock_draw_order trivTrig (DateOrMs.ms 0) true false (22, 60)).1 hne hhit⟩

/-! ## Claim C3 -/

theorem zip_map_visible (L : List Str) (cols : Int) (maxW : Nat) :
    (L.zip (L.map visibleLen)).map (fun lw =>
        List.replicate
            (max 0 (Int.fdiv (cols - (maxW : Int)) 2
              + Int.fdiv ((maxW : Int) - (lw.2 : Int)) 2)).toNat ' '
          ++ lw.1 ++ ['\n'])
      = L.map (fun l =>
        List.replicate
            (max 0 (Int.fdiv (cols - (maxW : Int)) 2
              + Int.fdiv ((maxW : Int) - (visibleLen l : Int)) 2)).toNat ' '
          ++ l ++ ['\n']) := by
  induction L with
  | nil => rfl
  | cons x t ih => simp only [List.map_cons, List.zip_cons_cons, ih]

/-- Claim C3: the frame emitted by `render` has the spec's layout:
`topPad = floor((rows - 1 - contentHeight)/2)` clamped blank lines, each
content line prefixed with `max(0, blockLeftPad + relativePad)` spaces
(one global `blockLeftPad`, per-line `relativePad` by visible lengths),
bottom padding of `rows - 1 - (topPad + contentHeight)` clamped blank
lines, then the footer centered against the full width by its own visible
length. -/
theorem render_layout_spec (figletF : FigletSys) (tg : Trig) (size : TermDims)
    (data : DateOrMs) (style : Str) (label : Option Str) (font : Str)
    (isPaused useGlyphs : Bool) :
    render figletF tg size data style label font isPaused useGlyphs
      = specLayout size
          (splitOnCh '\n'
            (renderContent figletF tg size data style label font isPaused useGlyphs))
          (footerTextOf style useGlyphs (isTimerOf data)) := by
  simp only [render, specLayout]
  rw [zip_map_visible]
  congr 1
  congr 1
  congr 1
  generalize Int.fdiv ((size.rows : Int) - 1
    - ((splitOnCh '\n'
        (renderContent figletF tg size data style label font isPaused useGlyphs)).length : Int))
    2 = T
  omega

/-! ## Claim C4 -/

/-- Claim C4: `render`'s frame ends with the (dimmed) footer built by
`footerTextOf` from the originally requested style; the footer always
starts with `"q: Quit | d: Digital | a: Analog | t: Text"`, contains
`"| f: Cycle Font"` iff the requested style is Digital, contains
`"| g: Glyphs (ON)"`/`"| g: Glyphs (OFF)"` (matching the glyph flag) iff
the requested style is Analog, and contains
`"| r: Reset | space: Start/Pause"` iff the input is a duration. -/
theorem footer_spec :
    (∀ (figletF : FigletSys) (tg : Trig) (size : TermDims) (data : DateOrMs)
        (style : Str) (label : Option Str) (font : Str) (isPaused useGlyphs : Bool),
      ∃ pre, render figletF tg size data style label font isPaused useGlyphs
        = pre ++ chalkDim (footerTextOf style useGlyphs (isTimerOf data)))
    ∧ ∀ (style : Str) (useGlyphs isTimer : Bool),
      (∃ rest, footerTextOf style useGlyphs isTimer
          = ("q: Quit | d: Digital | a: Analog | t: Text").data ++ rest)
      ∧ (containsSeg (("| f: Cycle Font").data) (footerTextOf style useGlyphs isTimer)
            = true ↔ style = ("digital").data)
      ∧ (containsSeg (("| g: Glyphs (ON)").data) (footerTextOf style useGlyphs isTimer)
            = true ↔ style = ("analog").data ∧ useGlyphs = true)
      ∧ (containsSeg (("| g: Glyphs (OFF)").data) (footerTextOf style useGlyphs isTimer)
            = true ↔ style = ("analog").data ∧ useGlyphs = false)
      ∧ (containsSeg (("| r: Reset | space: Start/Pause").data)
            (footerTextOf style useGlyphs isTimer) = true ↔ isTimer = true) := by
  constructor
  · intro figletF tg size data style label font isPaused useGlyphs
    simp only [render]
    exact ⟨_, by rw [← List.append_assoc]⟩
  · intro style useGlyphs isTimer
    refine ⟨⟨_, by unfold footerTextOf; rw [List.append_assoc]⟩, ?_, ?_, ?_, ?_⟩
    all_goals
      unfold footerTextOf
      by_cases hd : style = ("digital").data
    all_goals
      try subst hd
    all_goals
      try (by_cases ha : style = ("analog").data)
    all_goals
      try subst ha
    all_goals
      cases useGlyphs <;> cases isTimer <;>
        first
          | (simp only [if_pos rfl, if_neg hd, if_neg ha, reduceIte]
             first
               | decide
               | (refine iff_of_false (by decide) ?_
                  first
                    | exact hd
                    | exact ha
                    | (rintro ⟨h1, -⟩; first | exact hd h1 | exact ha h1)
                    | simp)
               | (refine iff_of_true (by decide) ?_; rfl))
          | decide
          | (refine iff_of_false (by decide) ?_
             first
               | exact hd
               | exact ha
               | (rintro ⟨h1, -⟩; first | exact hd h1 | exact ha h1)
               | simp)
          | (refine iff_of_true (by decide) ?_; rfl)

/-! ## Claim C2 -/

theorem renderFit_eq (figletF : FigletSys) (size : TermDims) (style font : Str) :
    renderFit figletF size style font
      = if style = ("digital").data
            ∧ (size.columns < 3 * (computeFontMetrics (figletF font)).blockWidth
                  + 2 * (computeFontMetrics (figletF font)).sepWidth
                ∨ size.rows < (computeFontMetrics (figletF font)).height + 2)
          then (chalkYellow (digitalWarn font
              ((computeFontMetrics (figletF font)).blockWidth * 3
                + (computeFontMetrics (figletF font)).sepWidth * 2)
              ((computeFontMetrics (figletF font)).height)), ("text").data)
        else if style = ("analog").data ∧ (size.columns < 90 ∨ size.rows < 45)
          then (chalkYellow analogWarn, ("text").data)
        else ([], style) := by
  unfold renderFit
  by_cases hd : style = ("digital").data
  · subst hd
    rw [if_pos rfl]
    by_cases hc : size.columns < (computeFontMetrics (figletF font)).blockWidth * 3
        + (computeFontMetrics (figletF font)).sepWidth * 2
        ∨ size.rows < (computeFontMetrics (figletF font)).height + 2
    · rw [if_pos hc, if_pos (show _ ∧ _ from ⟨rfl, by omega⟩)]
    · rw [if_neg hc, if_neg (show ¬ (_ ∧ _) from fun hcc => hc (by omega)),
        if_neg (show ¬ (_ ∧ _) from fun hcc => absurd hcc.1 (by decide))]
  · rw [if_neg hd]
    by_cases ha : style = ("analog").data
    · subst ha
      rw [if_pos rfl, if_neg (show ¬ (_ ∧ _) from fun hcc => hd hcc.1)]
      by_cases hc : size.columns < 90 ∨ size.rows < 45
      · rw [if_pos hc, if_pos (show _ ∧ _ from ⟨rfl, hc⟩)]
      · rw [if_neg hc, if_neg (show ¬ (_ ∧ _) from fun hcc => hc hcc.2)]
    · rw [if_neg ha, if_neg (show ¬ (_ ∧ _) from fun hcc => hd hcc.1),
        if_neg (show ¬ (_ ∧ _) from fun hcc => ha hcc.1)]

/-- Claim C2: `render` degrades the body to Text and appends the one-line
warning exactly when the requested style fails its fit check — Digital
fails iff `columns < 3*blockWidth + 2*sepWidth` or `rows < height + 2`
for the font's metrics, Analog fails iff `columns < 90` or `rows < 45`,
Text never degrades; in particular at a 40-column, 20-row terminal an
Analog request always degrades with the warning, and a Digital request
degrades with the warning whenever its fit check fails there. -/
theorem render_fit_check (figletF : FigletSys) (size : TermDims) (style font : Str) :
    ((renderFit figletF size style font).2
        = (if (style = ("digital").data
                ∧ (size.columns < 3 * (computeFontMetrics (figletF font)).blockWidth
                      + 2 * (computeFontMetrics (figletF font)).sepWidth
                    ∨ size.rows < (computeFontMetrics (figletF font)).height + 2))
              ∨ (style = ("analog").data ∧ (size.columns < 90 ∨ size.rows < 45))
            then ("text").data else style))
    ∧ ((renderFit figletF size style font).1 ≠ []
        ↔ (style = ("digital").data
              ∧ (size.columns < 3 * (computeFontMetrics (figletF font)).blockWidth
                    + 2 * (computeFontMetrics (figletF font)).sepWidth
                  ∨ size.rows < (computeFontMetrics (figletF font)).height + 2))
            ∨ (style = ("analog").data ∧ (size.columns < 90 ∨ size.rows < 45)))
    ∧ (style = ("text").data → renderFit figletF size style font = ([], style))
    ∧ (∀ (tg : Trig) (data : DateOrMs) (text : Str) (useGlyphs : Bool),
        ((style = ("digital").data
            ∧ (size.columns < 3 * (computeFontMetrics (figletF font)).blockWidth
                  + 2 * (computeFontMetrics (figletF font)).sepWidth
                ∨ size.rows < (computeFontMetrics (figletF font)).height + 2))
          ∨ (style = ("analog").data ∧ (size.columns < 90 ∨ size.rows < 45))) →
        renderBody figletF tg data (isTimerOf data)
            (renderFit figletF size style font).2 text font useGlyphs
          = chalkBoldBgBlackWhite (("  ").data ++ text ++ ("  ").data))
    ∧ (renderFit figletF ⟨20, 40⟩ (("analog").data) font
        = (chalkYellow analogWarn, ("text").data))
    ∧ ((40 < 3 * (computeFontMetrics (figletF font)).blockWidth
            + 2 * (computeFontMetrics (figletF font)).sepWidth
          ∨ 20 < (computeFontMetrics (figletF font)).height + 2) →
        (renderFit figletF ⟨20, 40⟩ (("digital").data) font).2 = ("text").data
          ∧ (renderFit figletF ⟨20, 40⟩ (("digital").data) font).1 ≠ []) := by
  have hana : renderFit figletF ⟨20, 40⟩ (("analog").data) font
      = (chalkYellow analogWarn, ("text").data) := by
    rw [renderFit_eq]
    rw [if_neg (show ¬ (_ ∧ _) from fun hcc => absurd hcc.1 (by decide)),
      if_pos (show _ ∧ _ from ⟨rfl, Or.inl (by decide)⟩)]
  have hdig40 : (40 < 3 * (computeFontMetrics (figletF font)).blockWidth
        + 2 * (computeFontMetrics (figletF font)).sepWidth
      ∨ 20 < (computeFontMetrics (figletF font)).height + 2) →
      (renderFit figletF ⟨20, 40⟩ (("digital").data) font).2 = ("text").data
        ∧ (renderFit figletF ⟨20, 40⟩ (("digital").data) font).1 ≠ [] := by
    intro hyp
    rw [renderFit_eq, if_pos (show _ ∧ _ from ⟨rfl, hyp⟩)]
    exact ⟨rfl, by simp [chalkYellow, wrap, sgr]⟩
  have htxt : style = ("text").data → renderFit figletF size style font = ([], style) := by
    intro ht
    subst ht
    rw [renderFit_eq,
      if_neg (show ¬ (_ ∧ _) from fun hcc => absurd hcc.1 (by decide)),
      if_neg (show ¬ (_ ∧ _) from fun hcc => absurd hcc.1 (by decide))]
  by_cases h1 : style = ("digital").data
      ∧ (size.columns < 3 * (computeFontMetrics (figletF font)).blockWidth
            + 2 * (computeFontMetrics (figletF font)).sepWidth
          ∨ size.rows < (computeFontMetrics (figletF font)).height + 2)
  · have hfit : renderFit figletF size style font
        = (chalkYellow (digitalWarn font
            ((computeFontMetrics (figletF font)).blockWidth * 3
              + (computeFontMetrics (figletF font)).sepWidth * 2)
            ((computeFontMetrics (figletF font)).height)), ("text").data) := by
      rw [renderFit_eq, if_pos h1]
    refine ⟨?_, ?_, htxt, ?_, hana, hdig40⟩
    · rw [hfit, if_pos (Or.inl h1)]
    · rw [hfit]
      exact iff_of_true (by simp [chalkYellow, wrap, sgr]) (Or.inl h1)
    · intro tg data text useGlyphs _
      have hfit2 : (renderFit figletF size style font).2 = ("text").data := by rw [hfit]
      rw [hfit2]
      unfold renderBody
      rw [if_neg (by decide), if_neg (by decide)]
  · by_cases h2 : style = ("analog").data ∧ (size.columns < 90 ∨ size.rows < 45)
    · have hfit : renderFit figletF size style font
          = (chalkYellow analogWarn, ("text").data) := by
        rw [renderFit_eq, if_neg h1, if_pos h2]
      refine ⟨?_, ?_, htxt, ?_, hana, hdig40⟩
      · rw [hfit, if_pos (Or.inr h2)]
      · rw [hfit]
        exact iff_of_true (by simp [chalkYellow, wrap, sgr]) (Or.inr h2)
      · intro tg data text useGlyphs _
        have hfit2 : (renderFit figletF size style font).2 = ("text").data := by rw [hfit]
        rw [hfit2]
        unfold renderBody
        rw [if_neg (by decide), if_neg (by decide)]
    · have hfit : renderFit figletF size style font = ([], style) := by
        rw [renderFit_eq, if_neg h1, if_neg h2]
      refine ⟨?_, ?_, htxt, ?_, hana, hdig40⟩
      · rw [hfit, if_neg (show ¬ (_ ∨ _) from fun hcc => hcc.elim h1 h2)]
      · rw [hfit]
        exact iff_of_false (by simp) (fun hcc => hcc.elim h1 h2)
      · intro tg data text useGlyphs hcc
        exact absurd hcc (fun hcc => hcc.elim h1 h2)

set_option maxRecDepth 10000 in
/-- Witness for C2: with the wide toy capability the digital fit check
fails at a 40-column, 20-row terminal. -/
theorem render_fit_check_witness :
    (40 < 3 * (computeFontMetrics (wideFiglet (("Standard").data))).blockWidth
        + 2 * (computeFontMetrics (wideFiglet (("Standard").data))).sepWidth
      ∨ 20 < (computeFontMetrics (wideFiglet (("Standard").data))).height + 2)
    ∧ ((("text").data : Str) = ("text").data →
        renderFit wideFiglet ⟨20, 40⟩ (("text").data) (("Standard").data)
          = ([], ("text").data))
    ∧ (renderFit wideFiglet ⟨20, 40⟩ (("digital").data) (("Standard").data)).2
        = ("text").data := by
  have hyp : (40 < 3 * (computeFontMetrics (wideFiglet (("Standard").data))).blockWidth
      + 2 * (computeFontMetrics (wideFiglet (("Standard").data))).sepWidth
    ∨ 20 < (computeFontMetrics (wideFiglet (("Standard").data))).height + 2) := by
    decide
  have h := render_fit_check wideFiglet ⟨20, 40⟩ (("digital").data) (("Standard").data)
  have h2 := render_fit_check wideFiglet ⟨20, 40⟩ (("text").data) (("Standard").data)
  exact ⟨hyp, fun _ => h2.2.2.1 rfl, (h.2.2.2.2.2 hyp).1⟩

end Ticktty
